import Mathlib

/-!
Verification development for the vibecoin educational blockchain.

The TypeScript sources are embedded shallowly:

* amounts are `ℚ` (the spec's data model requires exact equality on derived
  sums, licensing a high-precision exact representation for JS numbers);
* machine integers (gas counters, nonces) are `Nat`;
* the platform cryptographic primitives (SHA-256, ECDSA, secure random) are
  parameters of the definitions that consume them, except where a concrete
  SHA-256 is needed, which is implemented bit-for-bit from FIPS 180-4;
* throwing code is embedded with `Option`/`Except`, and JS object mutation
  by explicit state passing.
-/

set_option maxRecDepth 10000

section VibecoinDevelopment

attribute [local semireducible] Rat.add Rat.mul Rat.sub Rat.inv Rat.ofScientific

namespace Vibecoin

/-! ## Configuration (`src/config.ts`) -/

def GenesisCoinsAmount : ℚ := 1000
def MaxPendingTransactions : Nat := 10
def BlockchainDifficulty : Nat := 5
def RewardPerMinedTransaction : ℚ := 1/10
def FixedTransactionFee : ℚ := 1/20
def DefaultFeePercentage : ℚ := 1/100
def BlockMinerPoolSize : Nat := 10
def MaxBlockNonce : Nat := 10000000
def ContractDeployBaseFee : ℚ := 1
def ContractDeployPerByteFee : ℚ := 1/1000
def GasPrice : ℚ := 1/1000000
def DefaultGasLimit : Nat := 1000000
def MaxGasLimit : Nat := 10000000
def GasCostContractCall : Nat := 21000
def GasCostStorageRead : Nat := 200
def GasCostStorageWrite : Nat := 5000

/-! ## Contract runtime (`src/classes/Contract.ts`)

Contract storage is a JS object: embedded as an insertion-ordered
association list from keys to JS values. A contract function body is
user-supplied JS; what the runtime observes of it is the ordered sequence
of accesses it makes through the metered storage handle
(`getStorageProxy`) and how it finishes (return value with an optional
`transfer` request, or a thrown exception). A body is therefore embedded
as that observable trace: a list of storage operations followed by an
outcome. -/

/-- A JS value stored in contract storage. `null` also stands for
`undefined` (reading an absent key). -/
inductive Value
  | null
  | num (q : ℚ)
  | str (s : String)
  deriving DecidableEq, Repr

/-- Contract storage: a JS object, i.e. an insertion-ordered map. -/
abbrev Storage := List (String × Value)

/-- Property assignment `target[prop] = value` on a JS object. -/
def Storage.setKey : Storage → String → Value → Storage
  | [], k, v => [(k, v)]
  | (k', v') :: rest, k, v =>
    if k' = k then (k, v) :: rest else (k', v') :: Storage.setKey rest k v

/-- Property read `target[prop]` on a JS object (`undefined` ↦ `null`). -/
def Storage.getKey (st : Storage) (k : String) : Value :=
  (st.lookup k).getD .null

/-- The runtime exceptions the contract subsystem distinguishes: the only
case analysis the source performs on a caught error is
`error instanceof ChainError.OutOfGasError`, so every other exception is
embedded as `userError` with its name. -/
inductive ChainError
  | OutOfGasError
  | userError (name : String)
  deriving DecidableEq, Repr

/-- One access a contract function makes through the metered storage
handle of `Contract.getStorageProxy`. -/
inductive StorageOp
  | read (key : String)
  | write (key : String) (val : Value)
  deriving DecidableEq, Repr

/-- Gas charged by the proxy trap for one storage access
(`useGas(config.GasCostStorageRead)` on `get`,
`useGas(config.GasCostStorageWrite)` on `set`). -/
def StorageOp.gasCost : StorageOp → Nat
  | .read _ => GasCostStorageRead
  | .write _ _ => GasCostStorageWrite

/-- An outgoing transfer requested by a contract function (the magic
`transfer` field of its return value). -/
structure TransferRequest where
  toAddress : String
  amount : ℚ
  deriving DecidableEq, Repr

/-- The value a contract function returns on normal completion, with the
optional `transfer` request the runtime extracts from it. -/
structure FnResult where
  value : Value
  transfer : Option TransferRequest
  deriving DecidableEq, Repr

instance exceptDecEq {ε α : Type} [DecidableEq ε] [DecidableEq α] :
    DecidableEq (Except ε α) := fun x y =>
  match x, y with
  | .ok a, .ok b =>
    if h : a = b then .isTrue (by rw [h]) else .isFalse (by intro hc; cases hc; exact h rfl)
  | .error a, .error b =>
    if h : a = b then .isTrue (by rw [h]) else .isFalse (by intro hc; cases hc; exact h rfl)
  | .ok _, .error _ => .isFalse (by intro hc; cases hc)
  | .error _, .ok _ => .isFalse (by intro hc; cases hc)

/-- The observable trace of a user-supplied contract function: the storage
accesses it performs through the metered handle, in order, and how it
finishes if the metering lets it run to completion. -/
structure ContractFunction where
  ops : List StorageOp
  outcome : Except ChainError FnResult
  deriving DecidableEq, Repr

/-- The result shape `Contract.call` returns to the pipeline. -/
structure CallResult where
  success : Bool
  result : Option Value
  error : Option ChainError
  gasUsed : Nat
  transfers : List TransferRequest
  deriving DecidableEq, Repr

/-- Executes the storage accesses of a function body over the metered
proxy: each access first runs `useGas` (`gasUsed += cost; if gasUsed >
gasLimit throw OutOfGasError`), so a write that trips the meter does not
reach storage. Returns the (possibly partially mutated) storage, the gas
counter, and the trap if one fired. -/
def runOps (gasLimit : Nat) : List StorageOp → Storage → Nat → Storage × Nat × Option ChainError
  | [], st, gas => (st, gas, none)
  | op :: rest, st, gas =>
    let gas' := gas + op.gasCost
    if gasLimit < gas' then (st, gas', some .OutOfGasError)
    else
      match op with
      | .read _ => runOps gasLimit rest st gas'
      | .write k v => runOps gasLimit rest (st.setKey k v) gas'

/-- The metered execution at the heart of `Contract.call`: the gas counter
starts at `config.GasCostContractCall`, the body runs over the proxied
storage, and the catch clause reports `gasUsed` as the full `gasLimit`
exactly when the caught error is an `OutOfGasError`, and as the consumed
gas otherwise. -/
def callFn (fn : ContractFunction) (gasLimit : Nat) (st : Storage) : CallResult × Storage :=
  match runOps gasLimit fn.ops st GasCostContractCall with
  | (st', gas, some e) =>
    ({ success := false, result := none, error := some e,
       gasUsed := if e = .OutOfGasError then gasLimit else gas, transfers := [] }, st')
  | (st', gas, none) =>
    match fn.outcome with
    | .error e =>
      ({ success := false, result := none, error := some e,
         gasUsed := if e = .OutOfGasError then gasLimit else gas, transfers := [] }, st')
    | .ok r =>
      ({ success := true, result := some r.value, error := none, gasUsed := gas,
         transfers := match r.transfer with | some t => [t] | none => [] }, st')

/-- The static code of a deployed contract. `__init__` writes directly to
real storage (it is handed `this.storage`, not the proxy), so it is
embedded as the direct writes it performs; `getCodeSize` stringifies the
JS closures, which is implementation-defined per the spec, so the size is
carried as data. -/
structure ContractCode where
  initWrites : List (String × Value)
  functions : List (String × ContractFunction)
  codeSize : Nat
  deriving DecidableEq, Repr

/-- A `Contract` object: identity, current storage, the snapshot slot used
by preflight, and the `initialized` flag. -/
structure Contract where
  name : String
  creatorAddress : String
  address : String
  storage : Storage
  snapshot : Option Storage
  initialized : Bool
  code : ContractCode
  deriving DecidableEq, Repr

/-- `Contract.getCodeSize()`. -/
def Contract.getCodeSize (c : Contract) : Nat := c.code.codeSize

/-- Modelled from the spec: `Contract.takeStateSnapshot` is invoked by the
blockchain pipeline (`preflightContractCallTransaction`) but its body is
not among the sources; per the spec it must "take a state snapshot" —
"keep a serialized copy of storage before the call". -/
def Contract.takeStateSnapshot (c : Contract) : Contract :=
  { c with snapshot := some c.storage }

/-- Modelled from the spec: `Contract.revert` is invoked by the pipeline
on a failed call but its body is not among the sources; per the spec, "on
failure, restore" the serialized copy kept by `takeStateSnapshot`. -/
def Contract.revert (c : Contract) : Contract :=
  match c.snapshot with
  | some s => { c with storage := s }
  | none => c

/-- `Contract.call` for a non-`__init__` function: the assertions that
precede the `try` block (contract initialized, function exists) are not
caught by the runtime and abort the caller, embedded as `Except.error`;
otherwise the metered body runs and its `CallResult` is returned together
with the contract whose storage the proxied run mutated. -/
def Contract.call (c : Contract) (gasLimit : Nat) (fname : String) :
    Except String (CallResult × Contract) :=
  if !c.initialized then .error "Contract is not initialized"
  else
    match c.code.functions.lookup fname with
    | none => .error "Function does not exist in contract"
    | some fn =>
      let p := callFn fn gasLimit c.storage
      .ok (p.1, { c with storage := p.2 })

/-- `Contract.initialize`: registers the direct writes of `__init__` (run
over real storage, unmetered) and marks the contract initialized. A second
call would trip the `Contract already initialized` assertion; the functional
embedding returns the contract unchanged in that (aborting) case. -/
def Contract.initialize (c : Contract) : Contract :=
  if c.initialized then c
  else
    { c with
      storage := c.code.initWrites.foldl (fun st kv => st.setKey kv.1 kv.2) c.storage,
      initialized := true }

/-- The contract-side of `preflightContractCallTransaction`: snapshot, run
the metered call, and on failure restore the snapshot (revert). -/
def Contract.preflightCall (c : Contract) (gasLimit : Nat) (fname : String) :
    Except String (CallResult × Contract) :=
  match c.takeStateSnapshot.call gasLimit fname with
  | .error e => .error e
  | .ok (res, c2) => .ok (res, if res.success then c2 else c2.revert)

/-- Number of metered reads in a body trace. -/
def readCount (ops : List StorageOp) : Nat :=
  (ops.filter fun op => match op with | .read _ => true | _ => false).length

/-- Number of metered writes in a body trace. -/
def writeCount (ops : List StorageOp) : Nat :=
  (ops.filter fun op => match op with | .write _ _ => true | _ => false).length

/-- Total gas the proxy charges for a body trace. -/
def opsGasCost (ops : List StorageOp) : Nat := (ops.map StorageOp.gasCost).sum

/-! ### Concrete runtime instances used in closed evaluations -/

/-- A body that writes one key: the cheapest state-mutating call. -/
def exampleWriteFn : ContractFunction :=
  { ops := [.write "count" (.num 1)], outcome := .ok { value := .null, transfer := none } }

/-- A body with two reads and one write that completes normally. -/
def exampleOkFn : ContractFunction :=
  { ops := [.read "a", .write "b" (.num 2), .read "c"],
    outcome := .ok { value := .num 3, transfer := none } }

/-- A body that writes one key and then throws a user error: exercises the
revert path. -/
def exampleFailFn : ContractFunction :=
  { ops := [.write "x" (.num 1)],
    outcome := .error (.userError "MissingDataError") }

/-- A deployed, initialized contract carrying the example bodies. -/
def exampleContract : Contract :=
  { name := "Counter", creatorAddress := "addr-alice", address := "addr-counter",
    storage := [("x", .num 0)], snapshot := none, initialized := true,
    code := { initWrites := [], codeSize := 0,
              functions := [("ok", exampleOkFn), ("fail", exampleFailFn)] } }

/-! ## SHA-256 (FIPS 180-4)

The platform primitive `hash('sha256', key)` over ASCII keys, implemented
executably on `Nat` words (32-bit arithmetic is explicit `% 2^32`): needed
wherever a claim is about the behaviour of the concrete hash. -/

namespace SHA256

def M32 : Nat := 4294967296

def rotr (n x : Nat) : Nat := ((x >>> n) ||| (x <<< (32 - n))) % M32

def K : List Nat :=
  [1116352408, 1899447441, 3049323471, 3921009573, 961987163, 1508970993,
   2453635748, 2870763221, 3624381080, 310598401, 607225278, 1426881987,
   1925078388, 2162078206, 2614888103, 3248222580, 3835390401, 4022224774,
   264347078, 604807628, 770255983, 1249150122, 1555081692, 1996064986,
   2554220882, 2821834349, 2952996808, 3210313671, 3336571891, 3584528711,
   113926993, 338241895, 666307205, 773529912, 1294757372, 1396182291,
   1695183700, 1986661051, 2177026350, 2456956037, 2730485921, 2820302411,
   3259730800, 3345764771, 3516065817, 3600352804, 4094571909, 275423344,
   430227734, 506948616, 659060556, 883997877, 958139571, 1322822218,
   1537002063, 1747873779, 1955562222, 2024104815, 2227730452, 2361852424,
   2428436474, 2756734187, 3204031479, 3329325298]

def InitH : List Nat :=
  [1779033703, 3144134277, 1013904242, 2773480762, 1359893119, 2600822924,
   528734635, 1541459225]

def bigSigma0 (x : Nat) : Nat := rotr 2 x ^^^ rotr 13 x ^^^ rotr 22 x
def bigSigma1 (x : Nat) : Nat := rotr 6 x ^^^ rotr 11 x ^^^ rotr 25 x
def smallSigma0 (x : Nat) : Nat := rotr 7 x ^^^ rotr 18 x ^^^ (x >>> 3)
def smallSigma1 (x : Nat) : Nat := rotr 17 x ^^^ rotr 19 x ^^^ (x >>> 10)

def padMessage (bytes : List Nat) : List Nat :=
  let len := bytes.length
  let zeros := (64 - (len + 9) % 64) % 64
  bytes ++ [0x80] ++ List.replicate zeros 0 ++
    (List.range 8).map (fun i => ((len * 8) >>> ((7 - i) * 8)) % 256)

def toWords : List Nat → List Nat
  | b0 :: b1 :: b2 :: b3 :: rest => (((b0 * 256 + b1) * 256 + b2) * 256 + b3) :: toWords rest
  | _ => []

def chunk16Fuel : Nat → List Nat → List (List Nat)
  | 0, _ => []
  | _, [] => []
  | fuel+1, w :: ws => ((w :: ws).take 16) :: chunk16Fuel fuel ((w :: ws).drop 16)

def chunk16 (ws : List Nat) : List (List Nat) := chunk16Fuel ws.length ws

def scheduleStep (w : List Nat) (t : Nat) : Nat :=
  (smallSigma1 (w.getD (t - 2) 0) + w.getD (t - 7) 0 +
    smallSigma0 (w.getD (t - 15) 0) + w.getD (t - 16) 0) % M32

def extendSchedule (w : List Nat) : List Nat :=
  (List.range' 16 48).foldl (fun acc t => acc ++ [scheduleStep acc t]) w

def compressRound (k w : Nat) (hs : List Nat) : List Nat :=
  match hs with
  | [a, b, c, d, e, f, g, h] =>
    let ch := (e &&& f) ^^^ ((e ^^^ (M32 - 1)) &&& g)
    let maj := (a &&& b) ^^^ (a &&& c) ^^^ (b &&& c)
    let t1 := (h + bigSigma1 e + ch + k + w) % M32
    let t2 := (bigSigma0 a + maj) % M32
    [(t1 + t2) % M32, a, b, c, (d + t1) % M32, e, f, g]
  | l => l

def compressBlock (hs : List Nat) (block : List Nat) : List Nat :=
  let w := extendSchedule block
  let hs2 := (List.range 64).foldl (fun acc t => compressRound (K.getD t 0) (w.getD t 0) acc) hs
  (List.zip hs hs2).map (fun p => (p.1 + p.2) % M32)

def bytesOfString (s : String) : List Nat := s.data.map Char.toNat

def hexDigit (n : Nat) : Char := "0123456789abcdef".data.getD n '0'

def wordToHex (w : Nat) : List Char :=
  (List.range 8).map (fun i => hexDigit ((w >>> ((7 - i) * 4)) % 16))

def sha256 (s : String) : String :=
  let blocks := chunk16 (toWords (padMessage (bytesOfString s)))
  let hs := blocks.foldl compressBlock InitH
  String.mk ((hs.map wordToHex).foldr (· ++ ·) [])

end SHA256

/-! ## Merkle root (`Block.calculateMerkleRoot`, `src/classes/Block.ts`) -/

/-- One level of the bottom-up pairing loop: adjacent hashes combine as
`H(left + right)` where `right` is `hashes[i + 1] || left` — the last
element of an odd level (index out of bounds: `undefined` is falsy) and a
hypothetical empty-string entry both fall back to `left`. `H` is the
platform SHA-256 (`hash('sha256', key)`), a parameter here. -/
def merkleLevel (H : String → String) : List String → List String
  | [] => []
  | [x] => [H (x ++ x)]
  | x :: y :: rest =>
    H (x ++ (if y = "" then x else y)) :: merkleLevel H rest

/-- Fuel-indexed level fold (each level at least halves a multi-element
list, so fuel `length` always suffices; fuel recursion keeps the
definition kernel-computable). -/
def merkleFuel (H : String → String) : Nat → List String → String
  | _, [] => ""
  | _, [x] => x
  | 0, x :: _ :: _ => x
  | fuel+1, x :: y :: rest => merkleFuel H fuel (merkleLevel H (x :: y :: rest))

/-- `Block.calculateMerkleRoot`: fold levels bottom-up until a single hash
remains. The block constructor asserts non-empty data; on `[]` the source
would return `undefined`, embedded as `""`. -/
def calculateMerkleRoot (H : String → String) (hashes : List String) : String :=
  merkleFuel H hashes.length hashes

/-! ## Block sealing (`src/classes/Block.ts`, `src/block-miner.worker.ts`) -/

/-- Leading `0` characters of a hex hash (`getHashDifficulty`). -/
def countLeadingZeros : List Char → Nat
  | [] => 0
  | c :: rest => if c = '0' then countLeadingZeros rest + 1 else 0

def getHashDifficulty (h : String) : Nat := countLeadingZeros h.data

/-- The worker validity check:
`hash.substring(0, difficulty) === '0'.repeat(difficulty)`. -/
def isValidHash (difficulty : Nat) (h : String) : Bool :=
  decide (h.data.take difficulty = List.replicate difficulty '0')

/-- `previousHash` is `null` for genesis; template interpolation renders it
as the string `null` inside the hash preimage. -/
def prevHashStr : Option String → String
  | some h => h
  | none => "null"

/-- The block-hash preimage `timestamp-root-previousHash-nonce`
(`Block.generateHash` and the identical worker-side `generateHash`). -/
def blockKey (timestamp : Nat) (root : String) (previousHash : Option String) (nonce : Nat) :
    String :=
  toString timestamp ++ "-" ++ root ++ "-" ++ prevHashStr previousHash ++ "-" ++ toString nonce

/-- The nonce candidates a block-miner worker tries, in order:
`for (let nonce = startNonce; nonce < endNonce; nonce++)`. -/
def workerNonces (startNonce endNonce : Nat) : List Nat :=
  List.range' startNonce (endNonce - startNonce)

/-- One block-miner worker: scan the assigned nonce range in order and
report the first valid nonce with its hash, else failure. -/
def minerWorker (H : String → String) (difficulty timestamp : Nat) (root : String)
    (previousHash : Option String) (startNonce endNonce : Nat) : Option (Nat × String) :=
  (workerNonces startNonce endNonce).findSome? (fun n =>
    let h := H (blockKey timestamp root previousHash n)
    if isValidHash difficulty h then some (n, h) else none)

/-- The pool dispatch of `Block.mine`: `BlockMinerPoolSize` workers, worker
`i` receiving `startNonce = MaxBlockNonce * i` and
`endNonce = MaxBlockNonce * (i + 1) - 1`. The temporally-first success of
the race is embedded as the lowest-index success (any success carries a
valid nonce); `none` is the every-worker-exhausted case, on which
`Block.mine` throws `RangeError('Block mining failed for every worker')`
(the spec's `MiningExhausted`). -/
def mineSearch (H : String → String) (difficulty timestamp : Nat) (root : String)
    (previousHash : Option String) : Option (Nat × String) :=
  (List.range BlockMinerPoolSize).findSome? (fun i =>
    minerWorker H difficulty timestamp root previousHash
      (MaxBlockNonce * i) (MaxBlockNonce * (i + 1) - 1))

/-! ## PoS validator selection (`Blockchain.ProofOfStake.selectValidator`) -/

/-- The stake ledger `Map<Wallet, Amount>` in insertion order, keyed by
wallet address. -/
abbrev StakeLedger := List (String × ℚ)

/-- The cumulative-weight walk: the first staker whose cumulative weight
strictly exceeds the sample (`if (random < cumulativeWeight) return`). -/
def weightWalk (random : ℚ) : List (String × ℚ) → ℚ → Option String
  | [], _ => none
  | (w, weight) :: rest, acc =>
    let acc2 := acc + weight
    if random < acc2 then some w else weightWalk random rest acc2

/-- Stable insertion for descending weights: the embedding of
`toSorted((a, b) => b[1] - a[1])`, which orders by weight descending and
preserves insertion order between equal weights (insertion from the left
keeps an earlier entry ahead of equal-weight later ones). -/
def insertDesc (x : String × ℚ) : List (String × ℚ) → List (String × ℚ)
  | [] => [x]
  | y :: rest => if y.2 ≤ x.2 then x :: y :: rest else y :: insertDesc x rest

def sortDescByWeight : List (String × ℚ) → List (String × ℚ)
  | [] => []
  | x :: rest => insertDesc x (sortDescByWeight rest)

/-- Cumulative weight of the first `n` stakers. -/
def cumWeight (ws : List (String × ℚ)) (n : Nat) : ℚ := ((ws.take n).map Prod.snd).sum

/-- `selectValidator`. The secure sample
`getRandomValues(new Uint32Array(1))[0] / 2 ** 32 ∈ [0, 1)` is the
parameter `random`. With non-positive total stake the faucet validates;
otherwise the walk over `stake / totalStake` weights picks the first
cumulative exceedance, and if the walk falls off the end (a rounding
edge), the head of the descending sort — the heaviest staker — is
returned. (The `[0][0]` indexing of the sorted array would throw on an
empty ledger; unreachable, since a positive total forces an entry: the
faucet fallback of that arm is dead code standing in for the crash.) -/
def selectValidator (faucetAddress : String) (stakers : StakeLedger) (random : ℚ) : String :=
  let totalStake := (stakers.map Prod.snd).sum
  if totalStake ≤ 0 then faucetAddress
  else
    let weightedStakers := stakers.map (fun p => (p.1, p.2 / totalStake))
    match weightWalk random weightedStakers 0 with
    | some w => w
    | none =>
      match sortDescByWeight weightedStakers with
      | [] => faucetAddress
      | w :: _ => w.1

/-! ## Transactions (`class Transaction`) -/

/-- The `TransactionType` enum. `Stake` and `Unstake` are used by the
Proof-of-Stake chain; their enum entries are not among the sources and the
spec fixes their codes as `S` and `U` ("implementation-defined but must be
distinct"). -/
inductive TxType
  | Genesis | Transaction | Reward | Fees | ContractDeploy | ContractCall
  | Withdrawal | GasOnly | Stake | Unstake
  deriving DecidableEq, Repr

/-- The single-character enum value of each type (used in hash preimages). -/
def TxType.code : TxType → String
  | .Genesis => "_"
  | .Transaction => "T"
  | .Reward => "R"
  | .Fees => "F"
  | .ContractDeploy => "D"
  | .ContractCall => "C"
  | .Withdrawal => "W"
  | .GasOnly => "G"
  | .Stake => "S"
  | .Unstake => "U"

inductive RecipientKind
  | wallet | contract
  deriving DecidableEq, Repr

/-- A transaction endpoint (`Recipient = Wallet | Contract`): the ledger
logic observes its address and which class it is (`instanceof Wallet`). -/
structure Recipient where
  address : String
  kind : RecipientKind
  deriving DecidableEq, Repr

/-- A `Transaction` object. `from_` is `from` (a Lean keyword): `null` only
for synthesized types. `contract` holds the address of the referenced
`Contract` object (the object itself lives in the chain's `heap`, the
embedding of JS reference aliasing) and `functionName` names the called
function. `hash` and `signature` are set by the constructor; `gasUsed` and
`callResult` are written by preflight; `type` may be downgraded to
`GasOnly` by the pipeline. -/
structure Tx where
  type : TxType
  from_ : Option Recipient
  to_ : Recipient
  amount : ℚ
  fee : ℚ
  timestamp : Nat
  hash : String
  signature : Option String
  contract : Option String
  functionName : Option String
  gasLimit : Nat
  gasUsed : Option Nat
  callResult : Option CallResult
  deriving DecidableEq, Repr

/-- Constructor input (`TransactionData`), plus the `Date.now()` reading at
construction, which is an external input of the embedding. -/
structure TxData where
  from_ : Option Recipient
  to_ : Recipient
  amount : ℚ
  type : Option TxType
  fee : Option ℚ
  contract : Option String
  functionName : Option String
  gasLimit : Option Nat
  timestamp : Nat
  deriving Repr

/-- The preimage of `Transaction.generateHash`:
`timestamp-type-fromAddrOrBase-toAddr-amount-fee`. The exact-rational
printer stands in for JS number stringification; the rendering only feeds
the hash parameter. -/
def txKey (timestamp : Nat) (type : TxType) (from_ : Option Recipient) (to_ : Recipient)
    (amount fee : ℚ) : String :=
  toString timestamp ++ "-" ++ type.code ++ "-" ++
    (match from_ with | some r => r.address | none => "base") ++ "-" ++
    to_.address ++ "-" ++ toString amount ++ "-" ++ toString fee

/-- The types the constructor signs (when `from` is a `Wallet`). -/
def signedTypes : List TxType := [.Transaction, .ContractDeploy, .ContractCall]

/-- The `Transaction` constructor. `H` is the platform SHA-256 and
`sigOf addr hash` the ECDSA signature wallet `addr` attaches
(`this.from.signTransaction(this)`); both are parameters standing for
platform crypto. The JS `||` default makes a zero or absent `gasLimit`
fall back to `DefaultGasLimit`. The constructor's presence assertions
(sender for `Transaction`, contract for deploys, contract and function
name for calls) hold for every construction the pipeline performs. -/
def mkTransaction (H : String → String) (sigOf : String → String → String) (d : TxData) : Tx :=
  let type := d.type.getD .Transaction
  let fee := if type = TxType.Transaction then d.fee.getD DefaultFeePercentage else 0
  let hash := H (txKey d.timestamp type d.from_ d.to_ d.amount fee)
  { type := type
    from_ := d.from_
    to_ := d.to_
    amount := d.amount
    fee := fee
    timestamp := d.timestamp
    hash := hash
    signature :=
      if type ∈ signedTypes then
        match d.from_ with
        | some r => if r.kind = RecipientKind.wallet then some (sigOf r.address hash) else none
        | none => none
      else none
    contract := d.contract
    functionName := d.functionName
    gasLimit :=
      match d.gasLimit with
      | some g => if g = 0 then DefaultGasLimit else g
      | none => DefaultGasLimit
    gasUsed := none
    callResult := none }

/-- `Transaction.verify`: restore the sender's public key from its address
and check the attached signature over `hash`; a null sender or null
signature throws inside the restore and is caught as `false`.
`verifySig sig hash addr` is the platform ECDSA verification. -/
def Tx.verify (verifySig : String → String → String → Bool) (t : Tx) : Bool :=
  match t.from_, t.signature with
  | some r, some s => verifySig s t.hash r.address
  | _, _ => false

/-! ## Blocks (`class Block`) -/

/-- A `Block` object (`mineTime`, a display-only duration, is omitted). -/
structure Block where
  data : List Tx
  previousHash : Option String
  timestamp : Nat
  root : String
  nonce : Nat
  hash : String
  created : Bool
  difficulty : Option Nat
  validator : Option String
  signature : Option String
  deriving DecidableEq, Repr

/-- `Block.generateHash`. -/
def Block.generateHash (H : String → String) (b : Block) : String :=
  H (blockKey b.timestamp b.root b.previousHash b.nonce)

/-- The `Block` constructor: Merkle root over the transaction hashes, hash
at nonce 0, not yet mined or signed. (The non-empty-data assertion holds
for every block the pipeline builds: reward and fees are always present.) -/
def mkBlock (H : String → String) (data : List Tx) (previousHash : Option String)
    (timestamp : Nat) : Block :=
  let root := calculateMerkleRoot H (data.map Tx.hash)
  { data := data, previousHash := previousHash, timestamp := timestamp, root := root,
    nonce := 0, hash := H (blockKey timestamp root previousHash 0),
    created := false, difficulty := none, validator := none, signature := none }

/-- `Block.mine`: run the worker pool; on success store nonce, hash, the
`created` flag and the difficulty. `none` embeds both the
cannot-mine-mined-block assertion and the every-worker-exhausted
`RangeError`. -/
def Block.mine (H : String → String) (difficulty : Nat) (b : Block) : Option Block :=
  if b.created then none
  else
    match mineSearch H difficulty b.timestamp b.root b.previousHash with
    | some (nonce, hash) =>
      some { b with nonce := nonce, hash := hash, created := true,
                    difficulty := some difficulty }
    | none => none

/-- `Block.sign`: the validator wallet signs the block hash. -/
def Block.sign (sigOf : String → String → String) (validatorAddress : String) (b : Block) :
    Block :=
  { b with validator := some validatorAddress,
           signature := some (sigOf validatorAddress b.hash) }

inductive Consensus
  | ProofOfWork | ProofOfStake
  deriving DecidableEq, Repr

/-- `Block.validate`: recompute the hash, then the per-consensus check:
PoW needs the mined flag and enough leading hex zeros (a null difficulty
coerces to 0); PoS needs a verifying validator signature. -/
def Block.validate (H : String → String) (verifySig : String → String → String → Bool)
    (consensus : Consensus) (b : Block) : Bool :=
  if b.hash ≠ b.generateHash H then false
  else
    match consensus with
    | .ProofOfWork => b.created && decide (b.difficulty.getD 0 ≤ getHashDifficulty b.hash)
    | .ProofOfStake =>
      match b.signature, b.validator with
      | some s, some v => verifySig s b.hash v
      | _, _ => false

/-! ## Chain state and the assembly pipeline (`class BaseBlockchain`) -/

/-- Insertion-ordered associative update (JS object / `Map.set`). -/
def setAssoc {α : Type} : List (String × α) → String → α → List (String × α)
  | [], k, v => [(k, v)]
  | (k2, v2) :: rest, k, v =>
    if k2 = k then (k, v) :: rest else (k2, v2) :: setAssoc rest k v

/-- The state of a `Blockchain` object. `contracts` is the registry
`Set<string>`; `heap` holds the `Contract` objects reachable from
transactions, keyed by address (the embedding of JS reference aliasing);
`stakers` belongs to the `ProofOfStake` subclass. -/
structure ChainState where
  faucet : Recipient
  drain : Recipient
  blocks : List Block
  mempool : List Tx
  contracts : List String
  heap : List (String × Contract)
  stakers : StakeLedger
  isCreatingBlock : Bool
  deriving DecidableEq, Repr

/-- `calculateTransactionFees`: only the fee-paying types (`Transaction`,
`Stake`) pay the fixed fee plus the percentage of the amount. -/
def calculateTransactionFees (t : Tx) : ℚ :=
  if t.type = TxType.Transaction ∨ t.type = TxType.Stake then
    FixedTransactionFee + t.amount * t.fee
  else 0

/-- `getTotalTransactionAmount`. -/
def getTotalTransactionAmount (t : Tx) : ℚ := t.amount + calculateTransactionFees t

/-- `getBalance`: replay the whole ledger; debit the sender of each
transaction by its total amount — plus the gas cost when the transaction's
type is `ContractCall` — and credit the receiver by the amount. -/
def getBalance (blocks : List Block) (address : String) : ℚ :=
  blocks.foldl (fun balance block =>
    block.data.foldl (fun balance t =>
      let balance :=
        if t.from_.map Recipient.address = some address then
          balance - getTotalTransactionAmount t -
            (if t.type = TxType.ContractCall then ((t.gasUsed.getD 0 : Nat) : ℚ) * GasPrice
             else 0)
        else balance
      if t.to_.address = address then balance + t.amount else balance) balance) 0

/-- `getTotalSupply`: `Genesis` and `Reward` amounts. -/
def getTotalSupply (blocks : List Block) : ℚ :=
  blocks.foldl (fun supply block =>
    block.data.foldl (fun supply t =>
      if t.type = TxType.Genesis ∨ t.type = TxType.Reward then supply + t.amount else supply)
      supply) 0

/-- `addTransaction` admission: endpoints present and distinct, a positive
amount for type `Transaction`, and a verifying signature; a failed
assertion throws before the mempool push (embedded as no state change). -/
def addTransaction (verifySig : String → String → String → Bool) (s : ChainState) (t : Tx) :
    ChainState :=
  match t.from_ with
  | none => s
  | some f =>
    if f.address = t.to_.address then s
    else if t.type = TxType.Transaction ∧ t.amount ≤ 0 then s
    else if ¬(t.verify verifySig = true) then s
    else { s with mempool := s.mempool ++ [t] }

/-- Running balances during assembly (`Record<string, number>`). -/
abbrev Balances := List (String × ℚ)

def rbGet (rb : Balances) (addr : String) : ℚ := (rb.lookup addr).getD 0

/-- The lazy load with JS falsiness:
`if (!runningBalances[addr]) runningBalances[addr] = this.getBalance(...)`
re-seeds an entry that is absent or exactly 0. -/
def rbSeed (blocks : List Block) (rb : Balances) (addr : String) : Balances :=
  match rb.lookup addr with
  | none => setAssoc rb addr (getBalance blocks addr)
  | some v => if v = 0 then setAssoc rb addr (getBalance blocks addr) else rb

def rbAdd (rb : Balances) (addr : String) (delta : ℚ) : Balances :=
  setAssoc rb addr (rbGet rb addr + delta)

/-- Intermediate state of the `commonCreateBlockP1` handling loop. -/
structure AssemblyState where
  rb : Balances
  handled : List Tx
  heap : List (String × Contract)
  deriving Repr

/-- The contract-side of `preflightContractCallTransaction` against the
heap: snapshot, metered call with the transaction's gas limit, revert on
failure; `gasUsed` and `callResult` are recorded on the transaction.
(`contractBalance` is computed for `env`, which the embedded bodies do not
consume.) Aborting assertions inside `Contract.call` propagate. -/
def preflightHeap (heap : List (String × Contract)) (caddr : String) (t : Tx) :
    Except String (Tx × List (String × Contract)) :=
  match heap.lookup caddr with
  | none => .error "Contract object missing"
  | some c =>
    match c.preflightCall t.gasLimit (t.functionName.getD "") with
    | .error e => .error e
    | .ok (res, c2) =>
      .ok ({ t with gasUsed := some res.gasUsed, callResult := some res },
           setAssoc heap caddr c2)

/-- The deploy fee `ContractDeployBaseFee + ContractDeployPerByteFee · codeSize`. -/
def deployFee (c : Contract) : ℚ :=
  ContractDeployBaseFee + ContractDeployPerByteFee * (c.getCodeSize : ℚ)

/-- The spending/rollback/downgrade decision of `handleTransaction`, after
(for calls) preflight has recorded `gasUsed` on `t`. `f` is the sender. -/
def settleTransaction (blocks : List Block) (a : AssemblyState) (t : Tx) (f : Recipient) :
    Except String AssemblyState :=
  let gasCost : ℚ := ((t.gasUsed.getD 0 : Nat) : ℚ) * GasPrice
  match (if t.type = TxType.ContractDeploy then
           match t.contract.bind a.heap.lookup with
           | some c => Except.ok (deployFee c)
           | none => Except.error "Contract object missing"
         else if t.type = TxType.ContractCall then Except.ok (t.amount + gasCost)
         else Except.ok (getTotalTransactionAmount t)) with
  | .error e => .error e
  | .ok spendingAmount =>
    let rb := rbSeed blocks a.rb f.address
    let rb := rbAdd rb f.address (-spendingAmount)
    let rb := rbSeed blocks rb t.to_.address
    let rb := rbAdd rb t.to_.address t.amount
    if rbGet rb f.address < 0 then
      let rb := rbAdd rb f.address spendingAmount
      let rb := rbAdd rb t.to_.address (-t.amount)
      if t.type = TxType.ContractCall then
        if gasCost ≤ rbGet rb f.address then
          .ok { rb := rbAdd rb f.address (-gasCost),
                handled := a.handled ++ [{ t with type := TxType.GasOnly }],
                heap := a.heap }
        else .ok { a with rb := rb }
      else .ok { a with rb := rb }
    else
      .ok { rb := rb, handled := a.handled ++ [t], heap := a.heap }

/-- `handleTransaction`: one mempool entry. Signature re-check (drop),
registration check and preflight for calls (drop when unregistered), then
the balance decision. -/
def handleTransaction (verifySig : String → String → String → Bool)
    (blocks : List Block) (contracts : List String)
    (a : AssemblyState) (t : Tx) : Except String AssemblyState :=
  if ¬(t.verify verifySig = true) then .ok a
  else
    match t.from_ with
    | none => .ok a
    | some f =>
      if t.type = TxType.ContractCall then
        match t.contract with
        | none => .error "Contract call without a contract"
        | some caddr =>
          if ¬(caddr ∈ contracts) then .ok a
          else
            match preflightHeap a.heap caddr t with
            | .error e => .error e
            | .ok (t2, heap2) => settleTransaction blocks { a with heap := heap2 } t2 f
      else settleTransaction blocks a t f

/-- `getRewardTransaction`: `|handled| · RewardPerMinedTransaction` to the
reward wallet, from `null`. -/
def getRewardTransaction (H : String → String) (sigOf : String → String → String) (now : Nat)
    (handled : List Tx) (rewardWallet : Recipient) : Tx :=
  mkTransaction H sigOf
    { from_ := none, to_ := rewardWallet,
      amount := (handled.length : ℚ) * RewardPerMinedTransaction,
      type := some TxType.Reward, fee := none, contract := none, functionName := none,
      gasLimit := none, timestamp := now }

/-- `getFeesTransaction`: the transaction fees of every handled transaction
plus `gasUsed · GasPrice` of those whose type is (still) `ContractCall`. -/
def getFeesTransaction (H : String → String) (sigOf : String → String → String) (now : Nat)
    (handled : List Tx) (rewardWallet : Recipient) : Tx :=
  let feesAmount := (handled.map calculateTransactionFees).sum
  let gasFeesAmount :=
    ((handled.filter (fun t => decide (t.type = TxType.ContractCall))).map
      (fun t => ((t.gasUsed.getD 0 : Nat) : ℚ) * GasPrice)).sum
  mkTransaction H sigOf
    { from_ := none, to_ := rewardWallet, amount := feesAmount + gasFeesAmount,
      type := some TxType.Fees, fee := none, contract := none, functionName := none,
      gasLimit := none, timestamp := now }

/-- State threaded through the execution loop of `commonCreateBlockP1`. -/
structure ExecState where
  rb : Balances
  internalTxs : List Tx
  heap : List (String × Contract)
  contracts : List String
  stakers : StakeLedger
  deriving Repr

/-- `commitContractCallTransaction`: on preflight success synthesize one
internal `Withdrawal` per requested transfer when the contract balance
(running entry, else ledger balance — `??`, not falsiness) covers their
total, else drop them; on failure revert again (idempotent: the snapshot
is unchanged since preflight already restored it). -/
def commitContractCall (H : String → String) (sigOf : String → String → String) (now : Nat)
    (blocks : List Block) (e : ExecState) (t : Tx) : ExecState :=
  match t.callResult with
  | none => e
  | some res =>
    if res.success then
      let contractBalance :=
        match e.rb.lookup t.to_.address with
        | some v => v
        | none => getBalance blocks t.to_.address
      let totalWithdrawalAmount := (res.transfers.map TransferRequest.amount).sum
      if contractBalance < totalWithdrawalAmount then e
      else
        { e with internalTxs := e.internalTxs ++ res.transfers.map (fun tr =>
            mkTransaction H sigOf
              { from_ := some t.to_, to_ := { address := tr.toAddress, kind := .wallet },
                amount := tr.amount, type := some TxType.Withdrawal, fee := none,
                contract := none, functionName := none, gasLimit := none, timestamp := now }) }
    else
      match t.contract.bind e.heap.lookup with
      | some c => { e with heap := setAssoc e.heap c.address c.revert }
      | none => e

/-- `executeContractDeployTransaction`: register the address and run
`__init__` over real storage. -/
def executeContractDeploy (e : ExecState) (t : Tx) : ExecState :=
  match t.contract.bind e.heap.lookup with
  | some c =>
    { e with
      contracts := if c.address ∈ e.contracts then e.contracts else e.contracts ++ [c.address],
      heap := setAssoc e.heap c.address c.initialize }
  | none => e

/-- The `ProofOfStake.executeTransaction` override tail: `Stake` from a
wallet adds to the sender's ledger entry, `Unstake` to a wallet subtracts
from the receiver's. -/
def posStakeUpdate (e : ExecState) (t : Tx) : ExecState :=
  let stakers :=
    match t.from_ with
    | some f =>
      if f.kind = RecipientKind.wallet ∧ t.type = TxType.Stake then
        setAssoc e.stakers f.address ((e.stakers.lookup f.address).getD 0 + t.amount)
      else e.stakers
    | none => e.stakers
  let stakers :=
    if t.to_.kind = RecipientKind.wallet ∧ t.type = TxType.Unstake then
      setAssoc stakers t.to_.address (((stakers.lookup t.to_.address).getD 0) - t.amount)
    else stakers
  { e with stakers := stakers }

/-- `executeTransaction`: `GasOnly` has no side effect; deploys register
and initialize; calls commit. `pos` selects the `ProofOfStake` override. -/
def executeTransaction (H : String → String) (sigOf : String → String → String) (pos : Bool)
    (now : Nat) (blocks : List Block) (e : ExecState) (t : Tx) : ExecState :=
  let e2 :=
    if t.type = TxType.GasOnly then e
    else
      let e2 := if t.type = TxType.ContractDeploy then executeContractDeploy e t else e
      if t.type = TxType.ContractCall then commitContractCall H sigOf now blocks e2 t else e2
  if pos then posStakeUpdate e2 t else e2

/-- The sealed result of `commonCreateBlockP1`
(`CommonBlockCreationCheckpoint`, plus the working state the commit phase
must keep). -/
structure Checkpoint where
  block : Block
  rewardTransaction : Tx
  feesTransaction : Tx
  handledTransactions : List Tx
  internalTxs : List Tx
  rb : Balances
  heap : List (String × Contract)
  contracts : List String
  stakers : StakeLedger
  deriving Repr

/-- `commonCreateBlockP1`: `Except.ok none` is `return null` (empty mempool
before the re-entrancy assertion, or nothing handled); `Except.error` is an
uncaught assertion aborting the attempt. On success the new block carries
`[reward, fees, …handled, …internal]` and the latest block's hash. -/
def commonCreateBlockP1 (H : String → String) (sigOf : String → String → String)
    (verifySig : String → String → String → Bool) (pos : Bool) (now : Nat)
    (s : ChainState) (rewardWallet : Recipient) : Except String (Option Checkpoint) :=
  if s.mempool = [] then .ok none
  else if s.isCreatingBlock then .error "Handling already in progress"
  else
    match s.mempool.foldlM (handleTransaction verifySig s.blocks s.contracts)
        { rb := [], handled := [], heap := s.heap } with
    | .error e => .error e
    | .ok a =>
      if a.handled = [] then .ok none
      else
        let e1 := a.handled.foldl (executeTransaction H sigOf pos now s.blocks)
          { rb := a.rb, internalTxs := [], heap := a.heap,
            contracts := s.contracts, stakers := s.stakers }
        let rewardTransaction := getRewardTransaction H sigOf now a.handled rewardWallet
        let feesTransaction := getFeesTransaction H sigOf now a.handled rewardWallet
        let block := mkBlock H
          (rewardTransaction :: feesTransaction :: (a.handled ++ e1.internalTxs))
          ((s.blocks.getLast?).map Block.hash) now
        .ok (some { block := block, rewardTransaction := rewardTransaction,
                    feesTransaction := feesTransaction, handledTransactions := a.handled,
                    internalTxs := e1.internalTxs, rb := e1.rb, heap := e1.heap,
                    contracts := e1.contracts, stakers := e1.stakers })

/-- The consensus `addBlock` assertions, then the push. `none` embeds the
thrown `AssertionError` (nothing is pushed). -/
def addBlock (H : String → String) (verifySig : String → String → String → Bool)
    (cons : Consensus) (difficulty : Option Nat) (s : ChainState) (b : Block) :
    Option ChainState :=
  match cons with
  | .ProofOfWork =>
    if b.validate H verifySig .ProofOfWork = true ∧ b.created = true ∧
        b.difficulty = difficulty ∧ b.previousHash = (s.blocks.getLast?).map Block.hash then
      some { s with blocks := s.blocks ++ [b] }
    else none
  | .ProofOfStake =>
    if b.validate H verifySig .ProofOfStake = true ∧
        b.previousHash = (s.blocks.getLast?).map Block.hash then
      some { s with blocks := s.blocks ++ [b] }
    else none

/-- `commonCreateBlockP2`: the wallet-cache updates are advisory
(display-only; not ledger state), then the handled hashes are pruned from
the mempool and the sealed block is added. A failing `addBlock` assertion
leaves the mempool pruned and the re-entrancy flag stuck, as in the
source. -/
def commonCreateBlockP2 (H : String → String)
    (verifySig : String → String → String → Bool) (cons : Consensus)
    (difficulty : Option Nat) (s : ChainState) (cp : Checkpoint) : ChainState :=
  let handledHashes := cp.handledTransactions.map Tx.hash
  let s2 := { s with mempool := s.mempool.filter (fun t => ¬(t.hash ∈ handledHashes)),
                     heap := cp.heap, contracts := cp.contracts, stakers := cp.stakers }
  match addBlock H verifySig cons difficulty s2 cp.block with
  | some s3 => { s3 with isCreatingBlock := false }
  | none => { s2 with isCreatingBlock := true }

/-- `ProofOfWork.createBlock`: P1, mine, P2. A failed mine (the
`MiningExhausted` throw) keeps P1's heap and registry effects with the
re-entrancy flag stuck; `Except.error` aborts (its partial advisory
mutations are not tracked). -/
def createBlockPow (H : String → String) (sigOf : String → String → String)
    (verifySig : String → String → String → Bool) (difficulty : Nat) (now : Nat)
    (s : ChainState) (rewardWallet : Recipient) : ChainState :=
  match commonCreateBlockP1 H sigOf verifySig false now s rewardWallet with
  | .error _ => s
  | .ok none => s
  | .ok (some cp) =>
    match cp.block.mine H difficulty with
    | none =>
      { s with heap := cp.heap, contracts := cp.contracts, isCreatingBlock := true }
    | some mined =>
      commonCreateBlockP2 H verifySig .ProofOfWork (some difficulty) s { cp with block := mined }

/-- `ProofOfStake.createBlock`: select the validator (the secure sample is
the parameter `random`), P1 with the stake-ledger override, sign, P2. -/
def createBlockPos (H : String → String) (sigOf : String → String → String)
    (verifySig : String → String → String → Bool) (random : ℚ) (now : Nat)
    (s : ChainState) : ChainState :=
  let validatorAddress := selectValidator s.faucet.address s.stakers random
  let rewardWallet : Recipient := { address := validatorAddress, kind := .wallet }
  match commonCreateBlockP1 H sigOf verifySig true now s rewardWallet with
  | .error _ => s
  | .ok none => s
  | .ok (some cp) =>
    commonCreateBlockP2 H verifySig .ProofOfStake none s
      { cp with block := cp.block.sign sigOf validatorAddress }

/-- The `Genesis` transaction funding the faucet. -/
def genesisTx (H : String → String) (sigOf : String → String → String) (now : Nat)
    (faucet : Recipient) : Tx :=
  mkTransaction H sigOf
    { from_ := none, to_ := faucet, amount := GenesisCoinsAmount,
      type := some TxType.Genesis, fee := none, contract := none, functionName := none,
      gasLimit := none, timestamp := now }

/-- `ProofOfWork` construction and `init`: the genesis block is mined at
the chain's difficulty (`none` when its mine fails, a fatal error). -/
def initPow (H : String → String) (sigOf : String → String → String) (difficulty : Nat)
    (now : Nat) (faucet drain : Recipient) : Option ChainState :=
  let block := mkBlock H [genesisTx H sigOf now faucet] none now
  (block.mine H difficulty).map (fun mined =>
    { faucet := faucet, drain := drain, blocks := [mined], mempool := [],
      contracts := [], heap := [], stakers := [], isCreatingBlock := false })

/-- `ProofOfStake` construction and `init`: the genesis block is neither
mined nor signed (the chain anchor by convention). -/
def initPos (H : String → String) (sigOf : String → String → String) (now : Nat)
    (faucet drain : Recipient) : ChainState :=
  { faucet := faucet, drain := drain,
    blocks := [mkBlock H [genesisTx H sigOf now faucet] none now], mempool := [],
    contracts := [], heap := [], stakers := [], isCreatingBlock := false }

/-- `deployContract`: refuse an already-registered address, place the
caller-constructed `Contract` object in the heap, and submit the signed
`ContractDeploy` transaction paying the deploy fee to the drain. -/
def deployContract (H : String → String) (sigOf : String → String → String)
    (verifySig : String → String → String → Bool) (now : Nat) (s : ChainState)
    (c : Contract) : ChainState :=
  if c.address ∈ s.contracts then s
  else
    addTransaction verifySig { s with heap := setAssoc s.heap c.address c }
      (mkTransaction H sigOf
        { from_ := some { address := c.creatorAddress, kind := .wallet }, to_ := s.drain,
          amount := deployFee c, type := some TxType.ContractDeploy, fee := none,
          contract := some c.address, functionName := none, gasLimit := none,
          timestamp := now })

/-- The `$` call builder: assert the contract registered, then submit the
signed `ContractCall` transaction. -/
def submitContractCall (H : String → String) (sigOf : String → String → String)
    (verifySig : String → String → String → Bool) (now : Nat) (s : ChainState)
    (sender : Recipient) (caddr : String) (fname : String) (value : ℚ) (gasLimit : Nat) :
    ChainState :=
  if ¬(caddr ∈ s.contracts) then s
  else
    addTransaction verifySig s
      (mkTransaction H sigOf
        { from_ := some sender, to_ := { address := caddr, kind := .contract },
          amount := value, type := some TxType.ContractCall, fee := none,
          contract := some caddr, functionName := some fname,
          gasLimit := some gasLimit, timestamp := now })

/-- Pairwise linkage-and-validity loop of `validateIntegrity`, with `prev`
the block at `i - 1`. -/
def integrityFrom (H : String → String) (verifySig : String → String → String → Bool)
    (cons : Consensus) : Block → List Block → Bool
  | _, [] => true
  | prev, b :: rest =>
    b.validate H verifySig cons && decide (b.previousHash = some prev.hash) &&
      integrityFrom H verifySig cons b rest

/-- `validateIntegrity`: every block after the first validates and links to
its predecessor. -/
def validateIntegrity (H : String → String) (verifySig : String → String → String → Bool)
    (cons : Consensus) (s : ChainState) : Bool :=
  match s.blocks with
  | [] => true
  | b :: rest => integrityFrom H verifySig cons b rest

/-! ## The operations of the public chain API, and reachability -/

/-- One client-driven operation on a Proof-of-Work chain. -/
inductive PowOp
  | addTx (t : Tx)
  | deploy (c : Contract) (now : Nat)
  | call (sender : Recipient) (caddr fname : String) (value : ℚ) (gasLimit : Nat) (now : Nat)
  | createBlock (rewardWallet : Recipient) (now : Nat)

/-- One client-driven operation on a Proof-of-Stake chain. -/
inductive PosOp
  | addTx (t : Tx)
  | deploy (c : Contract) (now : Nat)
  | call (sender : Recipient) (caddr fname : String) (value : ℚ) (gasLimit : Nat) (now : Nat)
  | createBlock (random : ℚ) (now : Nat)

def applyPowOp (H : String → String) (sigOf : String → String → String)
    (verifySig : String → String → String → Bool) (difficulty : Nat)
    (s : ChainState) : PowOp → ChainState
  | .addTx t => addTransaction verifySig s t
  | .deploy c now => deployContract H sigOf verifySig now s c
  | .call sender caddr fname value gasLimit now =>
    submitContractCall H sigOf verifySig now s sender caddr fname value gasLimit
  | .createBlock rewardWallet now => createBlockPow H sigOf verifySig difficulty now s rewardWallet

def applyPosOp (H : String → String) (sigOf : String → String → String)
    (verifySig : String → String → String → Bool)
    (s : ChainState) : PosOp → ChainState
  | .addTx t => addTransaction verifySig s t
  | .deploy c now => deployContract H sigOf verifySig now s c
  | .call sender caddr fname value gasLimit now =>
    submitContractCall H sigOf verifySig now s sender caddr fname value gasLimit
  | .createBlock random now => createBlockPos H sigOf verifySig random now s

/-- Chain states a Proof-of-Work chain reaches from `init` under any
sequence of API operations. -/
inductive ReachablePow (H : String → String) (sigOf : String → String → String)
    (verifySig : String → String → String → Bool) (difficulty : Nat) : ChainState → Prop
  | genesis (now : Nat) (faucet drain : Recipient) (s : ChainState) :
      initPow H sigOf difficulty now faucet drain = some s →
      ReachablePow H sigOf verifySig difficulty s
  | step (s : ChainState) (op : PowOp) :
      ReachablePow H sigOf verifySig difficulty s →
      ReachablePow H sigOf verifySig difficulty (applyPowOp H sigOf verifySig difficulty s op)

/-- Chain states a Proof-of-Stake chain reaches from `init` under any
sequence of API operations. -/
inductive ReachablePos (H : String → String) (sigOf : String → String → String)
    (verifySig : String → String → String → Bool) : ChainState → Prop
  | genesis (now : Nat) (faucet drain : Recipient) :
      ReachablePos H sigOf verifySig (initPos H sigOf now faucet drain)
  | step (s : ChainState) (op : PosOp) :
      ReachablePos H sigOf verifySig s →
      ReachablePos H sigOf verifySig (applyPosOp H sigOf verifySig s op)

/-- Two distinct 64-hex-character leaf hashes, used to exhibit order
sensitivity of the Merkle root under the concrete SHA-256. -/
def hashA : String := String.mk (List.replicate 64 'a')

def hashB : String := String.mk (List.replicate 64 'b')

/-! ### Concrete scenario chains for closed evaluations -/

/-- Stand-in hash for scenario evaluation: prefixing five zeros keeps every
mining attempt trivially successful at nonce 0 while keeping distinct keys
distinct. (The balances under scrutiny never read hash values.) -/
def H0 (s : String) : String := "00000" ++ s

/-- Stand-in ECDSA signing for scenario evaluation. -/
def sig0 (addr h : String) : String := addr ++ "/" ++ h

/-- Stand-in ECDSA verification matching `sig0`. -/
def verify0 (s h addr : String) : Bool := decide (s = addr ++ "/" ++ h)

def faucetW : Recipient := { address := "addr-faucet", kind := .wallet }
def drainW : Recipient := { address := "addr-drain", kind := .wallet }
def aliceW : Recipient := { address := "addr-alice", kind := .wallet }
def bobW : Recipient := { address := "addr-bob", kind := .wallet }

/-- `new Transaction(from: faucet, to: alice, amount: 100)` at time 1. -/
def fundAliceTx : Tx :=
  mkTransaction H0 sig0
    { from_ := some faucetW, to_ := aliceW, amount := 100, type := none, fee := none,
      contract := none, functionName := none, gasLimit := none, timestamp := 1 }

/-- Scenario "genesis + fund + mine": fresh PoW chain at the default
difficulty (genesis at time 0), `faucet → alice, 100` admitted at time 1,
`createBlock(bob)` at time 2. -/
def scenario1Chain : Option ChainState :=
  (initPow H0 sig0 BlockchainDifficulty 0 faucetW drainW).map (fun s =>
    createBlockPow H0 sig0 verify0 BlockchainDifficulty 2
      (addTransaction verify0 s fundAliceTx) bobW)

/-- A deployed no-storage contract with one empty body (modelled code size
0), used by the GasOnly scenario. -/
def noopContract : Contract :=
  { name := "Noop", creatorAddress := faucetW.address, address := "addr-noop",
    storage := [], snapshot := none, initialized := false,
    code := { initWrites := [], codeSize := 0,
              functions := [("noop",
                { ops := [], outcome := .ok { value := .null, transfer := none } })] } }

/-- The GasOnly scenario: genesis (time 0); deploy `noopContract` (1) and
fund alice with 1 (2); mine (3); alice calls `noop` with value 5 at the
default gas limit (4); mine (5). Preflight prices the call at the 21000
gas base = 0.021 coin; alice holds 1, which cannot cover 5.021 but covers
the gas, so the pipeline downgrades the call to `GasOnly` and keeps it. -/
def gasOnlyChain : Option ChainState :=
  (initPow H0 sig0 BlockchainDifficulty 0 faucetW drainW).map (fun s =>
    let s := deployContract H0 sig0 verify0 1 s noopContract
    let s := addTransaction verify0 s (mkTransaction H0 sig0
      { from_ := some faucetW, to_ := aliceW, amount := 1, type := none, fee := none,
        contract := none, functionName := none, gasLimit := none, timestamp := 2 })
    let s := createBlockPow H0 sig0 verify0 BlockchainDifficulty 3 s bobW
    let s := submitContractCall H0 sig0 verify0 4 s aliceW noopContract.address "noop" 5
      DefaultGasLimit
    createBlockPow H0 sig0 verify0 BlockchainDifficulty 5 s bobW)

/-- `validateIntegrity` as a function of the block list alone. -/
def blocksOk (H : String → String) (verifySig : String → String → String → Bool)
    (cons : Consensus) : List Block → Bool
  | [] => true
  | b :: rest => integrityFrom H verifySig cons b rest

/-- The evaluated genesis state of the scenario chain (the `initPow` result
under the scenario stand-ins; the default is never taken). -/
def scenario1Genesis : ChainState :=
  (initPow H0 sig0 BlockchainDifficulty 0 faucetW drainW).getD (initPos H0 sig0 0 faucetW drainW)

theorem opsGasCost_cons (op : StorageOp) (rest : List StorageOp) :
    opsGasCost (op :: rest) = op.gasCost + opsGasCost rest := by
  simp [opsGasCost]

/-- The only exception the metered storage run itself raises is
`OutOfGasError` (the body's own exceptions surface through `outcome`). -/
theorem runOps_error_oog (gasLimit : Nat) (ops : List StorageOp) :
    ∀ st gas st' gas' e,
      runOps gasLimit ops st gas = (st', gas', some e) → e = ChainError.OutOfGasError := by
  induction ops with
  | nil =>
    intro st gas st' gas' e h
    simp [runOps] at h
  | cons op rest ih =>
    intro st gas st' gas' e h
    cases op with
    | read k =>
      simp only [runOps] at h
      by_cases hc : gasLimit < gas + StorageOp.gasCost (.read k)
      · simp [hc] at h
        exact h.2.2.symm
      · simp [hc] at h
        exact ih _ _ _ _ _ h
    | write k v =>
      simp only [runOps] at h
      by_cases hc : gasLimit < gas + StorageOp.gasCost (.write k v)
      · simp [hc] at h
        exact h.2.2.symm
      · simp [hc] at h
        exact ih _ _ _ _ _ h

/-- When the metered run completes without a trap, the gas counter ends at
its start plus the total cost of the trace. -/
theorem runOps_ok_gas (gasLimit : Nat) (ops : List StorageOp) :
    ∀ st gas st' gas',
      runOps gasLimit ops st gas = (st', gas', none) → gas' = gas + opsGasCost ops := by
  induction ops with
  | nil =>
    intro st gas st' gas' h
    simp [runOps] at h
    simp [opsGasCost, h]
  | cons op rest ih =>
    intro st gas st' gas' h
    cases op with
    | read k =>
      simp only [runOps] at h
      by_cases hc : gasLimit < gas + StorageOp.gasCost (.read k)
      · simp [hc] at h
      · simp [hc] at h
        have := ih _ _ _ _ h
        rw [opsGasCost_cons] at *
        omega
    | write k v =>
      simp only [runOps] at h
      by_cases hc : gasLimit < gas + StorageOp.gasCost (.write k v)
      · simp [hc] at h
      · simp [hc] at h
        have := ih _ _ _ _ h
        rw [opsGasCost_cons] at *
        omega

/-- The metered run traps with `OutOfGasError` iff the trace is non-empty
(the check lives inside `useGas`, so a body that never touches storage is
never trapped, whatever the limit) and the start gas plus the total cost
of the trace exceeds the gas limit: the counter grows monotonically, so it
crosses the limit at some access iff it ends above the limit. -/
theorem runOps_oog_iff (gasLimit : Nat) (ops : List StorageOp) :
    ∀ st gas,
      (runOps gasLimit ops st gas).2.2 = some ChainError.OutOfGasError ↔
        (ops ≠ [] ∧ gasLimit < gas + opsGasCost ops) := by
  induction ops with
  | nil =>
    intro st gas
    simp [runOps, opsGasCost]
  | cons op rest ih =>
    intro st gas
    have hstep :
        (runOps gasLimit (op :: rest) st gas).2.2 = some ChainError.OutOfGasError ↔
          (gasLimit < gas + op.gasCost ∨
            (¬gasLimit < gas + op.gasCost ∧
              (rest ≠ [] ∧ gasLimit < (gas + op.gasCost) + opsGasCost rest))) := by
      cases op with
      | read k =>
        simp only [runOps]
        by_cases hc : gasLimit < gas + StorageOp.gasCost (.read k)
        · simp [hc]
        · simp [hc, ih]
      | write k v =>
        simp only [runOps]
        by_cases hc : gasLimit < gas + StorageOp.gasCost (.write k v)
        · simp [hc]
        · simp [hc, ih]
    rw [hstep, opsGasCost_cons]
    by_cases hr : rest = []
    · subst hr
      simp [opsGasCost]
    · simp [hr]
      omega

/-- Prefix traces cost no more than the whole trace. -/
theorem opsGasCost_take_le (ops : List StorageOp) (n : Nat) :
    opsGasCost (ops.take n) ≤ opsGasCost ops := by
  induction ops generalizing n with
  | nil => simp [opsGasCost]
  | cons op rest ih =>
    cases n with
    | zero => simp [opsGasCost]
    | succ m =>
      simp only [List.take_succ_cons, opsGasCost_cons]
      exact Nat.add_le_add_left (ih m) _

/-- Whenever `Contract.call` returns a failed `CallResult`, the reported
gas is the full limit for an `OutOfGasError` and the consumed gas (base
cost plus the whole trace, which necessarily ran to completion) for any
other error. -/
theorem callFn_gasUsed_spec (fn : ContractFunction) (gl : Nat) (st : Storage) :
    ∀ e, (callFn fn gl st).1.error = some e →
      (callFn fn gl st).1.gasUsed =
        if e = ChainError.OutOfGasError then gl else GasCostContractCall + opsGasCost fn.ops := by
  intro e he
  simp only [callFn] at he ⊢
  rcases hr : runOps gl fn.ops st GasCostContractCall with ⟨st', gas, err⟩
  rw [hr] at he
  cases err with
  | some e' =>
    have hOog := runOps_error_oog gl fn.ops st GasCostContractCall st' gas e' hr
    subst hOog
    simp at he ⊢
    subst he
    simp
  | none =>
    cases ho : fn.outcome with
    | error e' =>
      rw [ho] at he
      simp at he ⊢
      subst he
      have := runOps_ok_gas gl fn.ops st GasCostContractCall st' gas hr
      by_cases hc : e' = ChainError.OutOfGasError <;> simp [hc, this]
    | ok r =>
      rw [ho] at he
      simp at he

/-- A successful `Contract.call` reports exactly the base cost plus the
cost of its metered trace. -/
theorem callFn_success_gas (fn : ContractFunction) (gl : Nat) (st : Storage)
    (h : (callFn fn gl st).1.success = true) :
    (callFn fn gl st).1.gasUsed = GasCostContractCall + opsGasCost fn.ops := by
  simp only [callFn] at h ⊢
  rcases hr : runOps gl fn.ops st GasCostContractCall with ⟨st', gas, err⟩
  rw [hr] at h
  cases err with
  | some e => simp at h
  | none =>
    cases ho : fn.outcome with
    | error e =>
      rw [ho] at h
      simp at h
    | ok r =>
      simp
      exact runOps_ok_gas gl fn.ops st GasCostContractCall st' gas hr

/-- A failed `Contract.call` carries an error and a null result. -/
theorem callFn_failure_shape (fn : ContractFunction) (gl : Nat) (st : Storage)
    (h : (callFn fn gl st).1.success = false) :
    (callFn fn gl st).1.error.isSome ∧ (callFn fn gl st).1.result = none := by
  simp only [callFn] at h ⊢
  rcases hr : runOps gl fn.ops st GasCostContractCall with ⟨st', gas, err⟩
  rw [hr] at h
  cases err with
  | some e => simp
  | none =>
    cases ho : fn.outcome with
    | error e =>
      simp
    | ok r =>
      rw [ho] at h
      simp at h

/-- Total proxy gas decomposes into reads and writes. -/
theorem opsGasCost_counts (ops : List StorageOp) :
    opsGasCost ops =
      readCount ops * GasCostStorageRead + writeCount ops * GasCostStorageWrite := by
  induction ops with
  | nil => simp [opsGasCost, readCount, writeCount]
  | cons op rest ih =>
    cases op with
    | read k =>
      simp only [opsGasCost_cons, readCount, writeCount, List.filter, StorageOp.gasCost] at *
      simp only [List.length_cons, Nat.succ_mul] at *
      omega
    | write k v =>
      simp only [opsGasCost_cons, readCount, writeCount, List.filter, StorageOp.gasCost] at *
      simp only [List.length_cons, Nat.succ_mul] at *
      omega

/-! ## Claim theorems on the contract runtime -/

/-- C3: the metered runtime raises `OutOfGas` exactly when a storage access
pushes the accumulated `gasUsed` over `gasLimit` (there is an access at
which the accumulated gas exceeds the limit iff the base cost plus the
whole trace exceeds it, the counter being monotone); every call that fails
with `OutOfGas` reports `gasUsed = gasLimit`, no matter at which access
the trap occurred; a call that fails for any other reason reports only the
gas actually consumed (base cost plus its completed trace). -/
theorem claim_C3_out_of_gas_semantics (fn : ContractFunction) (gl : Nat) (st : Storage) :
    ((runOps gl fn.ops st GasCostContractCall).2.2 = some ChainError.OutOfGasError ↔
        ∃ n, 1 ≤ n ∧ n ≤ fn.ops.length ∧
          gl < GasCostContractCall + opsGasCost (fn.ops.take n))
    ∧ ((callFn fn gl st).1.error = some ChainError.OutOfGasError →
        (callFn fn gl st).1.gasUsed = gl)
    ∧ (∀ e, (callFn fn gl st).1.error = some e → e ≠ ChainError.OutOfGasError →
        (callFn fn gl st).1.gasUsed = GasCostContractCall + opsGasCost fn.ops) := by
  refine ⟨?_, ?_, ?_⟩
  · rw [runOps_oog_iff]
    constructor
    · rintro ⟨hne, hlt⟩
      refine ⟨fn.ops.length, List.length_pos.mpr hne, le_refl _, ?_⟩
      simpa [List.take_length] using hlt
    · rintro ⟨n, h1, h2, hlt⟩
      constructor
      · intro hnil
        rw [hnil] at h2
        simp at h2
        omega
      · have := opsGasCost_take_le fn.ops n
        omega
  · intro he
    have := callFn_gasUsed_spec fn gl st ChainError.OutOfGasError he
    simpa using this
  · intro e he hne
    have := callFn_gasUsed_spec fn gl st e he
    simpa [hne] using this

/-- Closed instance of C3: a single-write body with the limit at the bare
base cost traps with `OutOfGas`, and the caller is charged the full limit. -/
theorem claim_C3_witness :
    (callFn exampleWriteFn GasCostContractCall []).1.error = some ChainError.OutOfGasError ∧
    (callFn exampleWriteFn GasCostContractCall []).1.gasUsed = GasCostContractCall :=
  ⟨by decide,
   (claim_C3_out_of_gas_semantics exampleWriteFn GasCostContractCall []).2.1 (by decide)⟩

/-- C4: preflight runs the function over the metered storage after taking a
snapshot, and every call that ends in an exception yields a failed
`CallResult` that carries an error (and its `gasUsed`), with the contract's
storage restored to the pre-call snapshot. -/
theorem claim_C4_preflight_revert (c : Contract) (gl : Nat) (fname : String)
    (res : CallResult) (c' : Contract)
    (h : c.preflightCall gl fname = .ok (res, c'))
    (hfail : res.success = false) :
    res.error.isSome ∧ res.result = none ∧ c'.storage = c.storage := by
  simp only [Contract.preflightCall, Contract.call, Contract.takeStateSnapshot] at h
  by_cases hinit : c.initialized
  · simp only [hinit, Bool.not_true, Bool.false_eq_true, if_false] at h
    rcases hf : c.code.functions.lookup fname with _ | fn
    · rw [hf] at h
      simp at h
    · rw [hf] at h
      simp only [Except.ok.injEq, Prod.mk.injEq] at h
      obtain ⟨hres, hc'⟩ := h
      subst hres
      rw [hfail] at hc'
      simp only [Bool.false_eq_true, if_false] at hc'
      have hshape := callFn_failure_shape fn gl c.storage hfail
      refine ⟨hshape.1, hshape.2, ?_⟩
      rw [← hc']
      simp [Contract.revert]
  · simp [hinit] at h

/-- Closed instance of C4: a body that writes a key and then throws leaves
the contract storage exactly as it was before the call. -/
theorem claim_C4_witness :
    (exampleContract.preflightCall 1000000 "fail" =
      Except.ok ({ success := false, result := none,
                   error := some (ChainError.userError "MissingDataError"),
                   gasUsed := 26000, transfers := [] },
                 { exampleContract with snapshot := some [("x", Value.num 0)] })) ∧
    ({ exampleContract with snapshot := some [("x", Value.num 0)] } : Contract).storage
        = exampleContract.storage :=
  ⟨by decide,
   (claim_C4_preflight_revert exampleContract 1000000 "fail"
      { success := false, result := none,
        error := some (ChainError.userError "MissingDataError"),
        gasUsed := 26000, transfers := [] }
      { exampleContract with snapshot := some [("x", Value.num 0)] }
      (by decide) (by decide)).2.2⟩

/-- C5: every metered call starts from the base cost `GasCostContractCall`,
and a successful call whose body performed `r` reads and `w` writes through
the storage handle reports `gasUsed` of exactly
`GasCostContractCall + r * GasCostStorageRead + w * GasCostStorageWrite`
(`__init__` alone bypasses the metered handle: `Contract.initialize` applies
its writes to real storage, unmetered). -/
theorem claim_C5_gas_accounting (fn : ContractFunction) (gl : Nat) (st : Storage)
    (h : (callFn fn gl st).1.success = true) :
    (callFn fn gl st).1.gasUsed =
      GasCostContractCall + readCount fn.ops * GasCostStorageRead
        + writeCount fn.ops * GasCostStorageWrite := by
  rw [callFn_success_gas fn gl st h, opsGasCost_counts]
  omega

/-- Closed instance of C5: two reads and one write cost
21000 + 2 * 200 + 1 * 5000 = 26400 gas. -/
theorem claim_C5_witness :
    (callFn exampleOkFn 1000000 []).1.success = true ∧
    (callFn exampleOkFn 1000000 []).1.gasUsed = 26400 := by
  refine ⟨by decide, ?_⟩
  have := claim_C5_gas_accounting exampleOkFn 1000000 [] (by decide)
  simpa [exampleOkFn, readCount, writeCount, GasCostContractCall,
    GasCostStorageRead, GasCostStorageWrite] using this

/-! ## Claim theorems on the Merkle root -/

theorem merkleLevel_length (H : String → String) :
    ∀ xs : List String, (merkleLevel H xs).length = (xs.length + 1) / 2
  | [] => by simp [merkleLevel]
  | [x] => by simp [merkleLevel]
  | x :: y :: rest => by
    simp only [merkleLevel, List.length_cons, merkleLevel_length H rest]
    omega

/-- The fuel index of `merkleFuel` is irrelevant above the list length. -/
theorem merkleFuel_congr (H : String → String) :
    ∀ fuel1 fuel2 xs, xs.length ≤ fuel1 → xs.length ≤ fuel2 →
      merkleFuel H fuel1 xs = merkleFuel H fuel2 xs := by
  intro fuel1
  induction fuel1 with
  | zero =>
    intro fuel2 xs h1 h2
    match xs with
    | [] => cases fuel2 <;> simp [merkleFuel]
    | x :: rest => simp at h1
  | succ f ih =>
    intro fuel2 xs h1 h2
    match xs with
    | [] => cases fuel2 <;> simp [merkleFuel]
    | [x] => cases fuel2 <;> simp [merkleFuel]
    | x :: y :: rest =>
      cases fuel2 with
      | zero => simp at h2
      | succ g =>
        simp only [merkleFuel]
        apply ih
        · rw [merkleLevel_length]
          simp at h1 ⊢
          omega
        · rw [merkleLevel_length]
          simp at h2 ⊢
          omega

/-- One bottom-up step of `calculateMerkleRoot` on a multi-element level. -/
theorem calculateMerkleRoot_step (H : String → String) (xs : List String)
    (h : 2 ≤ xs.length) :
    calculateMerkleRoot H xs = calculateMerkleRoot H (merkleLevel H xs) := by
  match xs, h with
  | x :: y :: rest, _ =>
    show merkleFuel H _ _ = merkleFuel H _ _
    rw [show merkleFuel H (x :: y :: rest).length (x :: y :: rest) =
          merkleFuel H ((x :: y :: rest).length - 1) (merkleLevel H (x :: y :: rest)) from ?_]
    · apply merkleFuel_congr
      · rw [merkleLevel_length]
        simp
        omega
      · exact le_refl _
    · simp only [List.length_cons]
      simp only [merkleFuel]
      have he : rest.length + 1 + 1 - 1 = rest.length + 1 := by omega
      rw [he]

/-- The odd-level rule: with an even prefix, a final unpaired hash is
combined with itself. -/
theorem merkleLevel_append_odd (H : String → String) :
    ∀ (xs : List String) (x : String), xs.length % 2 = 0 →
      merkleLevel H (xs ++ [x]) = merkleLevel H xs ++ [H (x ++ x)]
  | [], x, _ => by simp [merkleLevel]
  | [y], x, h => by simp at h
  | y :: z :: rest, x, h => by
    simp only [List.cons_append, merkleLevel, List.append_eq]
    rw [merkleLevel_append_odd H rest x (by simp at h ⊢; omega)]

/-- C8: the Merkle function returns a single leaf unchanged; an odd level
pairs its last element with itself under hash concatenation; levels are
combined pairwise bottom-up; and the root under the concrete SHA-256 is
order-sensitive: swapping two distinct leaves changes it. -/
theorem claim_C8_merkle_root :
    (∀ (H : String → String) (h : String), calculateMerkleRoot H [h] = h)
    ∧ (∀ (H : String → String) (xs : List String) (x : String), xs.length % 2 = 0 →
        merkleLevel H (xs ++ [x]) = merkleLevel H xs ++ [H (x ++ x)])
    ∧ (∀ (H : String → String) (xs : List String), 2 ≤ xs.length →
        calculateMerkleRoot H xs = calculateMerkleRoot H (merkleLevel H xs))
    ∧ calculateMerkleRoot SHA256.sha256 [hashA, hashB] ≠
        calculateMerkleRoot SHA256.sha256 [hashB, hashA] := by
  refine ⟨?_, merkleLevel_append_odd, calculateMerkleRoot_step, ?_⟩
  · intro H h
    rfl
  · decide

/-- Closed instance of C8: the singleton law at a concrete leaf, and the
odd-level duplication at a concrete three-hash level. -/
theorem claim_C8_witness :
    calculateMerkleRoot SHA256.sha256 [hashA] = hashA ∧
    merkleLevel SHA256.sha256 ([hashA, hashB] ++ [hashA]) =
      merkleLevel SHA256.sha256 [hashA, hashB] ++
        [SHA256.sha256 (hashA ++ hashA)] :=
  ⟨claim_C8_merkle_root.1 SHA256.sha256 hashA,
   claim_C8_merkle_root.2.1 SHA256.sha256 [hashA, hashB] hashA (by decide)⟩

/-! ## Claim theorems on the PoW miner pool -/

/-- C7 as stated is false at the upper edge of each worker's range: the
worker loop `for (nonce = startNonce; nonce < endNonce; nonce++)` runs
with `endNonce = MaxBlockNonce * (i + 1) - 1`, so the last nonce of the
claimed half-open interval — here nonce 9999999 for worker 0 — lies in
`[i·MaxBlockNonce, (i+1)·MaxBlockNonce)` but is never tried. -/
theorem claim_C7_counterexample :
    MaxBlockNonce * 0 ≤ 9999999 ∧ 9999999 < MaxBlockNonce * (0 + 1) ∧
      ¬(9999999 ∈ workerNonces (MaxBlockNonce * 0) (MaxBlockNonce * (0 + 1) - 1)) := by
  refine ⟨by norm_num, by norm_num [MaxBlockNonce], ?_⟩
  intro hmem
  rw [workerNonces, List.mem_range'] at hmem
  obtain ⟨i, hi, he⟩ := hmem
  norm_num [MaxBlockNonce] at hi he
  omega

/-- C7 (amended): `Block.mine` spawns `BlockMinerPoolSize` workers and
worker `i` tries exactly the nonces of `[i·MaxBlockNonce,
(i+1)·MaxBlockNonce − 1)` — every nonce of that half-open interval and
none outside it — and when every worker exhausts its range without a
valid hash, the search fails (`Block.mine` raises the mining-exhausted
`RangeError`). -/
theorem claim_C7_worker_ranges :
    (∀ i nonce, nonce ∈ workerNonces (MaxBlockNonce * i) (MaxBlockNonce * (i + 1) - 1) ↔
        (MaxBlockNonce * i ≤ nonce ∧ nonce < MaxBlockNonce * (i + 1) - 1))
    ∧ (∀ (H : String → String) (difficulty timestamp : Nat) (root : String)
        (previousHash : Option String),
        mineSearch H difficulty timestamp root previousHash = none ↔
          ∀ i < BlockMinerPoolSize,
            minerWorker H difficulty timestamp root previousHash
              (MaxBlockNonce * i) (MaxBlockNonce * (i + 1) - 1) = none) := by
  constructor
  · intro i nonce
    rw [workerNonces, List.mem_range']
    constructor
    · rintro ⟨j, hj, rfl⟩
      have hM : 0 < MaxBlockNonce := by norm_num [MaxBlockNonce]
      omega
    · rintro ⟨h1, h2⟩
      exact ⟨nonce - MaxBlockNonce * i, by omega, by omega⟩
  · intro H difficulty timestamp root previousHash
    rw [mineSearch, List.findSome?_eq_none_iff]
    constructor
    · intro h i hi
      exact h i (List.mem_range.mpr hi)
    · intro h i hi
      exact h i (List.mem_range.mp hi)

/-- Closed instance of the amended C7: nonce 25000000 lies in worker 2's
interval and 9999999 in no worker's; a mining function that never finds a
valid hash exhausts every worker. -/
theorem claim_C7_witness :
    (25000000 ∈ workerNonces (MaxBlockNonce * 2) (MaxBlockNonce * (2 + 1) - 1)) ∧
    mineSearch (fun _ => "f") 1 0 "r" none = none :=
  ⟨(claim_C7_worker_ranges.1 2 25000000).mpr (by norm_num [MaxBlockNonce]),
   (claim_C7_worker_ranges.2 (fun _ => "f") 1 0 "r" none).mpr (by
     intro i hi
     rw [minerWorker, List.findSome?_eq_none_iff]
     intro n hn
     simp [isValidHash])⟩

/-! ## Claim theorems on PoS validator selection -/

theorem cumWeight_cons (p : String × ℚ) (rest : List (String × ℚ)) (n : Nat) :
    cumWeight (p :: rest) (n + 1) = p.2 + cumWeight rest n := by
  simp [cumWeight, List.take_succ_cons]

/-- The walk returns the staker at the least index whose cumulative weight
exceeds the sample. -/
theorem weightWalk_least (random : ℚ) :
    ∀ (ws : List (String × ℚ)) (acc : ℚ) (j : Nat) (hj : j < ws.length),
      random < acc + cumWeight ws (j + 1) →
      (∀ k < j, ¬(random < acc + cumWeight ws (k + 1))) →
      weightWalk random ws acc = some (ws.get ⟨j, hj⟩).1 := by
  intro ws
  induction ws with
  | nil =>
    intro acc j hj
    simp at hj
  | cons p rest ih =>
    intro acc j hj hlt hmin
    cases j with
    | zero =>
      rw [cumWeight_cons] at hlt
      simp only [cumWeight, List.take_zero, List.map_nil, List.sum_nil, add_zero] at hlt
      simp only [weightWalk, List.get]
      rw [if_pos (by linarith)]
    | succ j2 =>
      have h0 := hmin 0 (Nat.succ_pos _)
      rw [cumWeight_cons] at h0
      simp only [cumWeight, List.take_zero, List.map_nil, List.sum_nil, add_zero] at h0
      simp only [weightWalk, List.get]
      rw [if_neg (by intro hc; exact h0 (by linarith))]
      apply ih (acc + p.2) j2 (by simpa using hj)
      · rw [cumWeight_cons] at hlt
        linarith
      · intro k hk
        have := hmin (k + 1) (by omega)
        rw [cumWeight_cons] at this
        intro hc
        exact this (by linarith)

theorem insertDesc_ne_nil (x : String × ℚ) (l : List (String × ℚ)) :
    insertDesc x l ≠ [] := by
  cases l with
  | nil => simp [insertDesc]
  | cons y t =>
    simp only [insertDesc]
    split <;> simp

theorem sortDescByWeight_eq_nil {l : List (String × ℚ)}
    (h : sortDescByWeight l = []) : l = [] := by
  cases l with
  | nil => rfl
  | cons p t =>
    simp only [sortDescByWeight] at h
    exact absurd h (insertDesc_ne_nil p (sortDescByWeight t))

/-- The head of the stable descending sort is a maximal-weight element. -/
theorem sortDesc_head_max :
    ∀ (l : List (String × ℚ)) (w : String × ℚ) (rest : List (String × ℚ)),
      sortDescByWeight l = w :: rest → w ∈ l ∧ ∀ x ∈ l, x.2 ≤ w.2 := by
  intro l
  induction l with
  | nil =>
    intro w rest h
    simp [sortDescByWeight] at h
  | cons p l2 ih =>
    intro w rest h
    simp only [sortDescByWeight] at h
    cases hs : sortDescByWeight l2 with
    | nil =>
      rw [hs] at h
      have hl2 : l2 = [] := sortDescByWeight_eq_nil hs
      subst hl2
      simp [insertDesc] at h
      refine ⟨by simp [h.1], ?_⟩
      intro x hx
      simp at hx
      simp [hx, h.1]
    | cons q qs =>
      rw [hs] at h
      obtain ⟨hqmem, hqmax⟩ := ih q qs hs
      simp only [insertDesc] at h
      by_cases hcmp : q.2 ≤ p.2
      · rw [if_pos hcmp] at h
        obtain ⟨rfl, _⟩ : p = w ∧ q :: qs = rest := by
          constructor <;> [exact (List.cons.injEq _ _ _ _ ▸ h).1; exact (List.cons.injEq _ _ _ _ ▸ h).2]
        refine ⟨by simp, ?_⟩
        intro x hx
        rcases List.mem_cons.mp hx with rfl | hx2
        · exact le_refl _
        · exact le_trans (hqmax x hx2) hcmp
      · rw [if_neg hcmp] at h
        obtain ⟨rfl, _⟩ : q = w ∧ insertDesc p qs = rest := by
          constructor <;> [exact (List.cons.injEq _ _ _ _ ▸ h).1; exact (List.cons.injEq _ _ _ _ ▸ h).2]
        refine ⟨List.mem_cons_of_mem p hqmem, ?_⟩
        intro x hx
        rcases List.mem_cons.mp hx with rfl | hx2
        · linarith [lt_of_not_le hcmp]
        · exact hqmax x hx2

/-- C9: with non-positive total stake the faucet validates; otherwise the
walk over `stake / totalStake` weights, fed a sample `random` (drawn by
the source from a cryptographically secure generator into `[0, 1)`),
returns the first staker whose cumulative weight exceeds the sample; and
when the walk falls off the end (the rounding edge), the selected staker
is one of maximal weight (stable-sorted head). -/
theorem claim_C9_select_validator (faucetAddress : String) (stakers : StakeLedger)
    (random : ℚ) :
    ((stakers.map Prod.snd).sum ≤ 0 →
      selectValidator faucetAddress stakers random = faucetAddress)
    ∧ (∀ (j : Nat)
        (hj : j < (stakers.map (fun p => (p.1, p.2 / (stakers.map Prod.snd).sum))).length),
        ¬((stakers.map Prod.snd).sum ≤ 0) →
        random <
          cumWeight (stakers.map (fun p => (p.1, p.2 / (stakers.map Prod.snd).sum))) (j + 1) →
        (∀ k < j, ¬(random <
          cumWeight (stakers.map (fun p => (p.1, p.2 / (stakers.map Prod.snd).sum))) (k + 1))) →
        selectValidator faucetAddress stakers random =
          ((stakers.map (fun p => (p.1, p.2 / (stakers.map Prod.snd).sum))).get ⟨j, hj⟩).1)
    ∧ (¬((stakers.map Prod.snd).sum ≤ 0) →
        weightWalk random (stakers.map (fun p => (p.1, p.2 / (stakers.map Prod.snd).sum))) 0 =
          none →
        ∃ q, (selectValidator faucetAddress stakers random, q) ∈
            stakers.map (fun p => (p.1, p.2 / (stakers.map Prod.snd).sum)) ∧
          ∀ x ∈ stakers.map (fun p => (p.1, p.2 / (stakers.map Prod.snd).sum)), x.2 ≤ q) := by
  refine ⟨?_, ?_, ?_⟩
  · intro h
    simp only [selectValidator]
    rw [if_pos h]
  · intro j hj hpos hlt hmin
    simp only [selectValidator]
    rw [if_neg hpos]
    rw [weightWalk_least random _ 0 j hj (by simpa using hlt)
      (by intro k hk; simpa using hmin k hk)]
  · intro hpos hwalk
    simp only [selectValidator]
    rw [if_neg hpos, hwalk]
    cases hs : sortDescByWeight (stakers.map (fun p => (p.1, p.2 / (stakers.map Prod.snd).sum))) with
    | nil =>
      have := sortDescByWeight_eq_nil hs
      have hnil : stakers = [] := by
        cases stakers with
        | nil => rfl
        | cons a t => simp at this
      subst hnil
      simp at hpos
    | cons w ws =>
      obtain ⟨hmem, hmax⟩ := sortDesc_head_max _ w ws hs
      exact ⟨w.2, by simpa using hmem, hmax⟩

/-- Closed instance of C9: with stakes 50/30/20 and sample 0.6 the walk
stops at the second staker; with an empty ledger the faucet validates. -/
theorem claim_C9_witness :
    selectValidator "faucet" [("alice", 50), ("bob", 30), ("carol", 20)] (6/10) = "bob" ∧
    selectValidator "faucet" [] (6/10) = "faucet" := by
  constructor
  · have h := (claim_C9_select_validator "faucet"
      [("alice", 50), ("bob", 30), ("carol", 20)] (6/10)).2.1 1 (by decide)
      (by decide) (by decide) (by decide)
    rw [h]
    decide
  · exact (claim_C9_select_validator "faucet" [] (6/10)).1 (by decide)

/-! ## Claim theorems on synthesized transactions and the scenarios -/

/-- C10: synthesized `Reward` and `Fees` transactions carry `from = null`
and `signature = null` (the constructor signs only wallet-sent
`Transaction`, `ContractDeploy` and `ContractCall`); their `verify()` is
false under every verifier (the null sender throws into the catch); they
can never pass `addTransaction`'s admission (its state is unchanged); and
`commonCreateBlockP1` places them directly at the head of the block under
construction — inclusion rests on type-based synthesis, not signature
verification. -/
theorem claim_C10_synthesized_unsigned (H : String → String)
    (sigOf : String → String → String) (verifySig : String → String → String → Bool)
    (now : Nat) (handled : List Tx) (rwallet : Recipient) :
    ((getRewardTransaction H sigOf now handled rwallet).from_ = none ∧
     (getRewardTransaction H sigOf now handled rwallet).signature = none ∧
     (getFeesTransaction H sigOf now handled rwallet).from_ = none ∧
     (getFeesTransaction H sigOf now handled rwallet).signature = none)
    ∧ ((getRewardTransaction H sigOf now handled rwallet).verify verifySig = false ∧
       (getFeesTransaction H sigOf now handled rwallet).verify verifySig = false)
    ∧ (∀ s : ChainState,
        addTransaction verifySig s (getRewardTransaction H sigOf now handled rwallet) = s ∧
        addTransaction verifySig s (getFeesTransaction H sigOf now handled rwallet) = s)
    ∧ (∀ (pos : Bool) (s : ChainState) (cp : Checkpoint),
        commonCreateBlockP1 H sigOf verifySig pos now s rwallet = .ok (some cp) →
        cp.rewardTransaction = getRewardTransaction H sigOf now cp.handledTransactions rwallet ∧
        cp.feesTransaction = getFeesTransaction H sigOf now cp.handledTransactions rwallet ∧
        cp.block.data = cp.rewardTransaction :: cp.feesTransaction ::
          (cp.handledTransactions ++ cp.internalTxs)) := by
  refine ⟨⟨rfl, rfl, rfl, rfl⟩, ⟨rfl, rfl⟩, ?_, ?_⟩
  · intro s
    constructor <;> rfl
  · intro pos s cp h
    simp only [commonCreateBlockP1] at h
    by_cases h1 : s.mempool = []
    · rw [if_pos h1] at h
      simp at h
    · rw [if_neg h1] at h
      by_cases h2 : s.isCreatingBlock = true
      · rw [if_pos h2] at h
        simp at h
      · rw [if_neg h2] at h
        cases hf : s.mempool.foldlM (handleTransaction verifySig s.blocks s.contracts)
            { rb := [], handled := [], heap := s.heap } with
        | error e =>
          rw [hf] at h
          simp at h
        | ok a =>
          rw [hf] at h
          dsimp only [] at h
          by_cases h3 : a.handled = []
          · rw [if_pos h3] at h
            simp at h
          · rw [if_neg h3] at h
            simp only [Except.ok.injEq, Option.some.injEq] at h
            subst h
            exact ⟨rfl, rfl, rfl⟩

/-- Closed instance of C10: a concrete synthesized reward transaction
fails verification even under an always-true verifier, and bounces off
admission on a concrete chain state. -/
theorem claim_C10_witness :
    (getRewardTransaction H0 sig0 0 [] bobW).verify (fun _ _ _ => true) = false ∧
    addTransaction (fun _ _ _ => true)
      { faucet := faucetW, drain := drainW, blocks := [], mempool := [], contracts := [],
        heap := [], stakers := [], isCreatingBlock := false }
      (getRewardTransaction H0 sig0 0 [] bobW) =
      { faucet := faucetW, drain := drainW, blocks := [], mempool := [], contracts := [],
        heap := [], stakers := [], isCreatingBlock := false } :=
  ⟨(claim_C10_synthesized_unsigned H0 sig0 (fun _ _ _ => true) 0 [] bobW).2.1.1,
   ((claim_C10_synthesized_unsigned H0 sig0 (fun _ _ _ => true) 0 [] bobW).2.2.1
     { faucet := faucetW, drain := drainW, blocks := [], mempool := [], contracts := [],
       heap := [], stakers := [], isCreatingBlock := false }).1⟩

/-- C2: on the fresh default proof-of-work chain, after `faucet → alice,
100` and `createBlock(bob)`: two blocks; `getBalance(alice) = 100`;
`getBalance(bob) = 0.1 + (0.05 + 100 · 0.01) = 1.15 = 23/20`;
`getBalance(faucet) = 1000 − (100 + 1.05) = 898.95 = 89895/100`. -/
theorem claim_C2_genesis_fund_mine :
    scenario1Chain.map (fun s =>
      (s.blocks.length,
       getBalance s.blocks aliceW.address,
       getBalance s.blocks bobW.address,
       getBalance s.blocks faucetW.address)) =
      some (2, 100, 23/20, 89895/100) := by
  decide

/-- C1: the downgrade-and-keep half of the claim holds — the third block
commits the call with its type downgraded to `GasOnly` — but the
authoritative `getBalance` half does not: alice (funded with 1, calling
with value 5 and 21000 gas = 0.021 coin) ends at `1 − 5 = −4`, i.e. the
ledger replay debits the full `amount` and pays the contract `amount`,
because `getBalance`'s gas branch matches on the type `ContractCall`,
which the downgrade rewrote to `GasOnly`; the gas-only charge the claim
(and spec) prescribe would end at `1 − 0.021 = 0.979`. The contract is
credited 5 despite "no state effect". -/
theorem claim_C1_gas_only_balance :
    gasOnlyChain.map (fun s =>
      (s.blocks.length,
       s.blocks.getLast?.map (fun b => b.data.map Tx.type),
       getBalance s.blocks aliceW.address,
       getBalance s.blocks noopContract.address)) =
      some (3, some [TxType.Reward, TxType.Fees, TxType.GasOnly], -4, 5) := by
  decide

/-! ## Claim theorems on chain integrity -/

theorem validateIntegrity_eq_blocksOk (H : String → String)
    (verifySig : String → String → String → Bool) (cons : Consensus) (s : ChainState) :
    validateIntegrity H verifySig cons s = blocksOk H verifySig cons s.blocks := by
  cases hb : s.blocks <;> simp [validateIntegrity, blocksOk, hb]

theorem getLast?_cons_eq {α : Type} (c : α) (rest : List α) :
    (c :: rest).getLast? = some (rest.getLastD c) := by
  induction rest generalizing c with
  | nil => rfl
  | cons d rest ih => rw [List.getLast?_cons_cons, ih d, List.getLastD_cons]

/-- Appending a block that validates and links to the current tail keeps
the pairwise loop satisfied. -/
theorem integrityFrom_append (H : String → String)
    (verifySig : String → String → String → Bool) (cons : Consensus) (b : Block) :
    ∀ (rest : List Block) (prev : Block),
      integrityFrom H verifySig cons prev rest = true →
      b.validate H verifySig cons = true →
      b.previousHash = some (rest.getLastD prev).hash →
      integrityFrom H verifySig cons prev (rest ++ [b]) = true := by
  intro rest
  induction rest with
  | nil =>
    intro prev hI hv hp
    simp only [List.nil_append, integrityFrom, Bool.and_eq_true, decide_eq_true_eq]
    exact ⟨⟨hv, by simpa using hp⟩, trivial⟩
  | cons c rest ih =>
    intro prev hI hv hp
    simp only [integrityFrom, Bool.and_eq_true] at hI
    simp only [List.cons_append, integrityFrom, Bool.and_eq_true]
    refine ⟨hI.1, ih c hI.2 hv ?_⟩
    rw [List.getLastD_cons] at hp
    exact hp

theorem blocksOk_append (H : String → String)
    (verifySig : String → String → String → Bool) (cons : Consensus)
    (blocks : List Block) (b : Block)
    (hI : blocksOk H verifySig cons blocks = true)
    (hv : b.validate H verifySig cons = true)
    (hp : b.previousHash = (blocks.getLast?).map Block.hash) :
    blocksOk H verifySig cons (blocks ++ [b]) = true := by
  cases blocks with
  | nil => simp [blocksOk, integrityFrom]
  | cons c rest =>
    simp only [blocksOk] at hI ⊢
    rw [getLast?_cons_eq] at hp
    exact integrityFrom_append H verifySig cons b rest c hI hv (by simpa using hp)

/-- What a successful `addBlock` guarantees: the pushed block passed the
consensus validation and the linkage assertion. -/
theorem addBlock_spec (H : String → String) (verifySig : String → String → String → Bool)
    (cons : Consensus) (difficulty : Option Nat) (s : ChainState) (b : Block)
    (s' : ChainState) (h : addBlock H verifySig cons difficulty s b = some s') :
    s'.blocks = s.blocks ++ [b] ∧ b.validate H verifySig cons = true ∧
      b.previousHash = (s.blocks.getLast?).map Block.hash := by
  cases cons with
  | ProofOfWork =>
    simp only [addBlock] at h
    split at h
    · rename_i hc
      obtain ⟨h1, _, _, h4⟩ := hc
      cases h
      exact ⟨rfl, h1, h4⟩
    · cases h
  | ProofOfStake =>
    simp only [addBlock] at h
    split at h
    · rename_i hc
      cases h
      exact ⟨rfl, hc.1, hc.2⟩
    · cases h

/-- The commit tail of `commonCreateBlockP2` over an arbitrary working
state `s2`: the committed blocks stay unchanged (a failed `addBlock`
assertion) or gain exactly the checkpoint block after its assertions
passed. -/
theorem addBlockTail_blocks (H : String → String)
    (verifySig : String → String → String → Bool) (cons : Consensus)
    (difficulty : Option Nat) (s2 : ChainState) (b : Block) :
    ((match addBlock H verifySig cons difficulty s2 b with
      | some s3 => { s3 with isCreatingBlock := false }
      | none => { s2 with isCreatingBlock := true }) : ChainState).blocks = s2.blocks ∨
    (((match addBlock H verifySig cons difficulty s2 b with
      | some s3 => { s3 with isCreatingBlock := false }
      | none => { s2 with isCreatingBlock := true }) : ChainState).blocks = s2.blocks ++ [b] ∧
      b.validate H verifySig cons = true ∧
      b.previousHash = (s2.blocks.getLast?).map Block.hash) := by
  cases ha : addBlock H verifySig cons difficulty s2 b with
  | none => left; rfl
  | some s3 =>
    right
    obtain ⟨h1, h2, h3⟩ := addBlock_spec H verifySig cons difficulty s2 b s3 ha
    exact ⟨h1, h2, h3⟩

/-- `commonCreateBlockP2` either leaves the committed blocks unchanged (a
failed `addBlock` assertion) or appends the checkpoint block after its
assertions passed. -/
theorem commonCreateBlockP2_blocks (H : String → String)
    (verifySig : String → String → String → Bool) (cons : Consensus)
    (difficulty : Option Nat) (s : ChainState) (cp : Checkpoint) :
    (commonCreateBlockP2 H verifySig cons difficulty s cp).blocks = s.blocks ∨
    ((commonCreateBlockP2 H verifySig cons difficulty s cp).blocks = s.blocks ++ [cp.block] ∧
      cp.block.validate H verifySig cons = true ∧
      cp.block.previousHash = (s.blocks.getLast?).map Block.hash) := by
  have h := addBlockTail_blocks H verifySig cons difficulty
    { s with
      mempool := s.mempool.filter (fun t => ¬(t.hash ∈ cp.handledTransactions.map Tx.hash)),
      heap := cp.heap, contracts := cp.contracts, stakers := cp.stakers } cp.block
  exact h

/-- Blocks are untouched by mempool admission. -/
theorem addTransaction_blocks (verifySig : String → String → String → Bool)
    (s : ChainState) (t : Tx) : (addTransaction verifySig s t).blocks = s.blocks := by
  unfold addTransaction
  cases t.from_ with
  | none => rfl
  | some f =>
    dsimp only
    split_ifs <;> rfl

theorem deployContract_blocks (H : String → String) (sigOf : String → String → String)
    (verifySig : String → String → String → Bool) (now : Nat) (s : ChainState)
    (c : Contract) : (deployContract H sigOf verifySig now s c).blocks = s.blocks := by
  unfold deployContract
  split_ifs <;> simp [addTransaction_blocks]

theorem submitContractCall_blocks (H : String → String) (sigOf : String → String → String)
    (verifySig : String → String → String → Bool) (now : Nat) (s : ChainState)
    (sender : Recipient) (caddr fname : String) (value : ℚ) (gasLimit : Nat) :
    (submitContractCall H sigOf verifySig now s sender caddr fname value gasLimit).blocks =
      s.blocks := by
  unfold submitContractCall
  split_ifs <;> simp [addTransaction_blocks]

/-- `ProofOfWork.createBlock` preserves the integrity loop. -/
theorem createBlockPow_blocksOk (H : String → String) (sigOf : String → String → String)
    (verifySig : String → String → String → Bool) (difficulty : Nat) (now : Nat)
    (s : ChainState) (rewardWallet : Recipient)
    (hI : blocksOk H verifySig .ProofOfWork s.blocks = true) :
    blocksOk H verifySig .ProofOfWork
      (createBlockPow H sigOf verifySig difficulty now s rewardWallet).blocks = true := by
  unfold createBlockPow
  cases commonCreateBlockP1 H sigOf verifySig false now s rewardWallet with
  | error e => exact hI
  | ok o =>
    cases o with
    | none => exact hI
    | some cp =>
      dsimp only
      cases cp.block.mine H difficulty with
      | none => exact hI
      | some mined =>
        dsimp only
        rcases commonCreateBlockP2_blocks H verifySig .ProofOfWork (some difficulty) s
            { cp with block := mined } with h | ⟨h1, h2, h3⟩
        · rw [h]; exact hI
        · rw [h1]; exact blocksOk_append H verifySig .ProofOfWork s.blocks mined hI h2 h3

/-- `ProofOfStake.createBlock` preserves the integrity loop. -/
theorem createBlockPos_blocksOk (H : String → String) (sigOf : String → String → String)
    (verifySig : String → String → String → Bool) (random : ℚ) (now : Nat)
    (s : ChainState)
    (hI : blocksOk H verifySig .ProofOfStake s.blocks = true) :
    blocksOk H verifySig .ProofOfStake
      (createBlockPos H sigOf verifySig random now s).blocks = true := by
  unfold createBlockPos
  dsimp only
  cases commonCreateBlockP1 H sigOf verifySig true now s
      { address := selectValidator s.faucet.address s.stakers random,
        kind := RecipientKind.wallet } with
  | error e => exact hI
  | ok o =>
    cases o with
    | none => exact hI
    | some cp =>
      dsimp only
      rcases commonCreateBlockP2_blocks H verifySig Consensus.ProofOfStake none s
          (Checkpoint.mk
            (Block.sign sigOf (selectValidator s.faucet.address s.stakers random) cp.block)
            cp.rewardTransaction cp.feesTransaction cp.handledTransactions cp.internalTxs
            cp.rb cp.heap cp.contracts cp.stakers) with h | ⟨h1, h2, h3⟩
      · rw [h]; exact hI
      · rw [h1]; exact blocksOk_append H verifySig Consensus.ProofOfStake s.blocks _ hI h2 h3

/-- Every reachable PoW chain state passes the integrity loop. -/
theorem reachablePow_blocksOk (H : String → String) (sigOf : String → String → String)
    (verifySig : String → String → String → Bool) (difficulty : Nat) (s : ChainState)
    (h : ReachablePow H sigOf verifySig difficulty s) :
    blocksOk H verifySig .ProofOfWork s.blocks = true := by
  induction h with
  | genesis now faucet drain s hinit =>
    unfold initPow at hinit
    dsimp only at hinit
    cases hm : (mkBlock H [genesisTx H sigOf now faucet] none now).mine H difficulty with
    | none => rw [hm] at hinit; cases hinit
    | some mined =>
      rw [hm] at hinit
      cases hinit
      rfl
  | step s op hreach ih =>
    cases op with
    | addTx t => rw [applyPowOp, addTransaction_blocks]; exact ih
    | deploy c now => rw [applyPowOp, deployContract_blocks]; exact ih
    | call sender caddr fname value gasLimit now =>
      rw [applyPowOp, submitContractCall_blocks]; exact ih
    | createBlock rewardWallet now =>
      exact createBlockPow_blocksOk H sigOf verifySig difficulty now s rewardWallet ih

/-- Every reachable PoS chain state passes the integrity loop. -/
theorem reachablePos_blocksOk (H : String → String) (sigOf : String → String → String)
    (verifySig : String → String → String → Bool) (s : ChainState)
    (h : ReachablePos H sigOf verifySig s) :
    blocksOk H verifySig .ProofOfStake s.blocks = true := by
  induction h with
  | genesis now faucet drain => rfl
  | step s op hreach ih =>
    cases op with
    | addTx t => rw [applyPosOp, addTransaction_blocks]; exact ih
    | deploy c now => rw [applyPosOp, deployContract_blocks]; exact ih
    | call sender caddr fname value gasLimit now =>
      rw [applyPosOp, submitContractCall_blocks]; exact ih
    | createBlock random now =>
      exact createBlockPos_blocksOk H sigOf verifySig random now s ih

/-- The integrity loop, elementwise: every block after the first validates
and links to its predecessor. -/
theorem integrityFrom_elementwise (H : String → String)
    (verifySig : String → String → String → Bool) (cons : Consensus) :
    ∀ (rest : List Block) (prev : Block),
      integrityFrom H verifySig cons prev rest = true →
      ∀ (i : Nat) (h1 : i < rest.length),
        (rest.get ⟨i, h1⟩).validate H verifySig cons = true ∧
        (rest.get ⟨i, h1⟩).previousHash =
          some (((prev :: rest).get ⟨i, by simp; omega⟩).hash) := by
  intro rest
  induction rest with
  | nil =>
    intro prev hI i h1
    simp at h1
  | cons c rest ih =>
    intro prev hI i h1
    simp only [integrityFrom, Bool.and_eq_true, decide_eq_true_eq] at hI
    cases i with
    | zero => exact ⟨hI.1.1, hI.1.2⟩
    | succ j =>
      have := ih c hI.2 j (by simpa using h1)
      exact this

/-- The integrity loop, read off at each index of the whole chain. -/
theorem blocksOk_elementwise (H : String → String)
    (verifySig : String → String → String → Bool) (cons : Consensus)
    (blocks : List Block) (hI : blocksOk H verifySig cons blocks = true)
    (i : Nat) (h1 : i + 1 < blocks.length) :
    (blocks.get ⟨i + 1, h1⟩).validate H verifySig cons = true ∧
    (blocks.get ⟨i + 1, h1⟩).previousHash =
      some ((blocks.get ⟨i, by omega⟩).hash) := by
  cases blocks with
  | nil => simp at h1
  | cons b rest =>
    have h := integrityFrom_elementwise H verifySig cons rest b hI i (by simpa using h1)
    exact ⟨h.1, h.2⟩

/-- C6: on both consensus variants, in every chain state reachable by
`init` followed by any sequence of API operations (`addTransaction`,
contract submissions, `createBlock`), every block after the genesis block
has `previousHash` equal to the hash of the block immediately before it
and satisfies `validate` for the chain's consensus, so `validateIntegrity`
returns `true` — for every choice of platform hash, signer and verifier. -/
theorem claim_C6_chain_integrity :
    (∀ (H : String → String) (sigOf : String → String → String)
        (verifySig : String → String → String → Bool) (difficulty : Nat) (s : ChainState),
        ReachablePow H sigOf verifySig difficulty s →
        validateIntegrity H verifySig Consensus.ProofOfWork s = true ∧
        (∀ (i : Nat) (h1 : i + 1 < s.blocks.length),
          (s.blocks.get ⟨i + 1, h1⟩).validate H verifySig Consensus.ProofOfWork = true ∧
          (s.blocks.get ⟨i + 1, h1⟩).previousHash =
            some ((s.blocks.get ⟨i, by omega⟩).hash)))
    ∧ (∀ (H : String → String) (sigOf : String → String → String)
        (verifySig : String → String → String → Bool) (s : ChainState),
        ReachablePos H sigOf verifySig s →
        validateIntegrity H verifySig Consensus.ProofOfStake s = true ∧
        (∀ (i : Nat) (h1 : i + 1 < s.blocks.length),
          (s.blocks.get ⟨i + 1, h1⟩).validate H verifySig Consensus.ProofOfStake = true ∧
          (s.blocks.get ⟨i + 1, h1⟩).previousHash =
            some ((s.blocks.get ⟨i, by omega⟩).hash))) := by
  constructor
  · intro H sigOf verifySig difficulty s h
    have hI := reachablePow_blocksOk H sigOf verifySig difficulty s h
    refine ⟨?_, ?_⟩
    · rw [validateIntegrity_eq_blocksOk]
      exact hI
    · intro i h1
      exact blocksOk_elementwise H verifySig Consensus.ProofOfWork s.blocks hI i h1
  · intro H sigOf verifySig s h
    have hI := reachablePos_blocksOk H sigOf verifySig s h
    refine ⟨?_, ?_⟩
    · rw [validateIntegrity_eq_blocksOk]
      exact hI
    · intro i h1
      exact blocksOk_elementwise H verifySig Consensus.ProofOfStake s.blocks hI i h1

/-- Closed instance of C6: the two-block scenario chain (genesis, fund
alice, mine by bob) reached through the API operations passes
`validateIntegrity`. -/
theorem claim_C6_witness :
    validateIntegrity H0 verify0 Consensus.ProofOfWork
      (applyPowOp H0 sig0 verify0 BlockchainDifficulty
        (applyPowOp H0 sig0 verify0 BlockchainDifficulty scenario1Genesis
          (PowOp.addTx fundAliceTx))
        (PowOp.createBlock bobW 2)) = true :=
  (claim_C6_chain_integrity.1 H0 sig0 verify0 BlockchainDifficulty _
    (ReachablePow.step _ _ (ReachablePow.step _ _
      (ReachablePow.genesis 0 faucetW drainW scenario1Genesis (by decide))))).1

end Vibecoin

end VibecoinDevelopment
